import Mathlib

/-!
Verification development for the engram repository.

The development shallowly embeds the TypeScript sources:

* `src/utils/canonicalize.ts` — RFC8785-style canonical JSON serialization;
* `src/utils/id.ts` — SHA-256 content-addressed identifiers;
* `src/store/repository.ts` and the extended `Repository` class — typed
  CRUD with idempotent `INSERT OR IGNORE` writes over SQLite tables;
* `src/cli/commands/apply.ts`, `reflect.ts`, `bbon/run.ts`, `bbon/judge.ts`
  — the command layer.

JavaScript strings are embedded as their UTF-16 code-unit sequences
(`List Nat`), so that surrogate pairs, the default `Array.prototype.sort`
comparator and `JSON.stringify` escaping are represented exactly.

JavaScript numbers are embedded as rationals; the development covers the
subset of finite IEEE-754 doubles whose `toString` form is their exact
decimal expansion (all integers of magnitude below 2^53 and fractions with
terminating decimal expansion).  Values outside this subset are reported
as an embedding-boundary error by `canonicalize`, mirroring the way the
source reports non-finite numbers; no claim in this development depends on
such values.
-/

namespace Engram

/-- A JavaScript string: its sequence of UTF-16 code units. -/
abbrev JStr := List Nat

/-- UTF-16 code units of one Unicode scalar value (surrogate pair when
the scalar is outside the basic multilingual plane). -/
def utf16Char (c : Char) : List Nat :=
  let n := c.toNat
  if n < 65536 then [n]
  else [55296 + (n - 65536) / 1024, 56320 + (n - 65536) % 1024]

/-- Embed a Lean string literal as a JavaScript string. -/
def u (s : String) : JStr := (s.data.map utf16Char).join

/-- Is the code unit a high (leading) surrogate? -/
def isHigh (c : Nat) : Bool := decide (55296 ≤ c ∧ c ≤ 56319)

/-- Is the code unit a low (trailing) surrogate? -/
def isLow (c : Nat) : Bool := decide (56320 ≤ c ∧ c ≤ 57343)

/-- Is the code unit any surrogate? -/
def isSurr (c : Nat) : Bool := isHigh c || isLow c

/-- The code points of a JavaScript string: surrogate pairs are combined,
a lone surrogate stands for its own value. -/
def codePoints : JStr → List Nat
  | [] => []
  | [c1] => [c1]
  | c1 :: c2 :: rest =>
    if isHigh c1 && isLow c2 then
      (65536 + (c1 - 55296) * 1024 + (c2 - 56320)) :: codePoints rest
    else c1 :: codePoints (c2 :: rest)

/-- UTF-8 bytes of one code point (as produced for scalar values). -/
def utf8Cp (n : Nat) : List Nat :=
  if n < 128 then [n]
  else if n < 2048 then [192 + n / 64, 128 + n % 64]
  else if n < 65536 then [224 + n / 4096, 128 + n / 64 % 64, 128 + n % 64]
  else [240 + n / 262144, 128 + n / 4096 % 64, 128 + n / 64 % 64, 128 + n % 64]

/-- UTF-8 bytes of one code unit standing alone: a lone surrogate
becomes U+FFFD, anything else encodes itself. -/
def utf8One (c : Nat) : List Nat := if isSurr c then utf8Cp 65533 else utf8Cp c

/-- UTF-8 encoding of a JavaScript string as performed by Node's
`Buffer.from(s, 'utf8')`: surrogate pairs are decoded, lone surrogates
become U+FFFD. -/
def utf8Encode : JStr → List Nat
  | [] => []
  | [c1] => utf8One c1
  | c1 :: c2 :: rest =>
    if isHigh c1 && isLow c2 then
      utf8Cp (65536 + (c1 - 55296) * 1024 + (c2 - 56320)) ++ utf8Encode rest
    else utf8One c1 ++ utf8Encode (c2 :: rest)

/-! ### Decimal rendering of numbers -/

/-- Decimal digit code units of a natural number (fuel-driven so the
recursion is structural and kernel-reducible). -/
def natDigits (fuel n : Nat) : List Nat :=
  match fuel with
  | 0 => []
  | fuel + 1 => if n < 10 then [48 + n] else natDigits fuel (n / 10) ++ [48 + n % 10]

/-- Decimal code units of a natural number. -/
def natStr (n : Nat) : JStr := natDigits (n + 1) n

/-- Decimal code units of an integer, `String(num)` on an integral value. -/
def intStr (i : Int) : JStr := if i < 0 then 45 :: natStr i.natAbs else natStr i.natAbs

/-- Digits after the decimal point of `num/den` (`num < den`); `none`
when the expansion does not terminate within the fuel. -/
def fracDigits (fuel num den : Nat) : Option (List Nat) :=
  match fuel with
  | 0 => none
  | fuel + 1 =>
    if num == 0 then some []
    else
      match fracDigits fuel (num * 10 % den) den with
      | some ds => some ((48 + num * 10 / den) :: ds)
      | none => none

/-- Mirrors `canonicalizeNumber` of `src/utils/canonicalize.ts` on the
embedded number subset.  Integral values take the `Number.isInteger`
branch (`String(num)`); other values render by their exact terminating
decimal expansion, which on this subset coincides with the source's
`num.toString()`.  A number outside the subset is an embedding-boundary
error (the source's own error branch is the analogous rejection of
non-finite numbers, which the rational embedding cannot represent). -/
def canonNumber (q : Rat) : Except String JStr :=
  if q.den = 1 then .ok (intStr q.num)
  else
    match fracDigits 64 (q.num.natAbs % q.den) q.den with
    | some ds =>
      .ok ((if q.num < 0 then [45] else []) ++ natStr (q.num.natAbs / q.den) ++ 46 :: ds)
    | none => .error "Cannot canonicalize numbers outside the terminating-decimal embedding"

/-! ### JSON string escaping (`JSON.stringify` on strings) -/

/-- Lowercase hex digit code unit of `n % 16`. -/
def hexNibble (n : Nat) : Nat := if n % 16 < 10 then 48 + n % 16 else 87 + n % 16

/-- Four lowercase hex digits of a 16-bit value. -/
def hexUnit4 (n : Nat) : List Nat :=
  [hexNibble (n / 4096), hexNibble (n / 256), hexNibble (n / 16), hexNibble n]

/-- `JSON.stringify` escape of a single code unit that is not part of a
surrogate pair. -/
def escUnit (c : Nat) : List Nat :=
  if c = 34 then [92, 34]
  else if c = 92 then [92, 92]
  else if c = 8 then [92, 98]
  else if c = 9 then [92, 116]
  else if c = 10 then [92, 110]
  else if c = 12 then [92, 102]
  else if c = 13 then [92, 114]
  else if c < 32 then 92 :: 117 :: hexUnit4 c
  else if isSurr c then 92 :: 117 :: hexUnit4 c
  else [c]

/-- Body of the well-formed `JSON.stringify` string escape: paired
surrogates pass through, everything else goes through `escUnit`. -/
def jsonQuoteUnits : List Nat → List Nat
  | [] => []
  | [c1] => escUnit c1
  | c1 :: c2 :: rest =>
    if isHigh c1 && isLow c2 then c1 :: c2 :: jsonQuoteUnits rest
    else escUnit c1 ++ jsonQuoteUnits (c2 :: rest)

/-- `JSON.stringify` of a string value. -/
def jsonQuote (s : JStr) : JStr := 34 :: jsonQuoteUnits s ++ [34]

/-! ### JavaScript values

`JVal` embeds the I-JSON values handled by `canonicalize`, plus the
`undefined` marker that `canonicalize` maps to `null` at top level and
omits inside objects.  The list-like recursions are spelled as mutual
inductives so that every function below is structurally recursive and
kernel-reducible. -/

mutual
inductive JVal : Type
  | jundef : JVal
  | jnull : JVal
  | jbool (b : Bool) : JVal
  | jnum (q : Rat) : JVal
  | jstr (s : JStr) : JVal
  | jarr (elems : JArr) : JVal
  | jobj (fields : JFields) : JVal

inductive JArr : Type
  | nil : JArr
  | cons (v : JVal) (rest : JArr) : JArr

inductive JFields : Type
  | nil : JFields
  | cons (key : JStr) (v : JVal) (rest : JFields) : JFields
end

/-- Build an array value from a list. -/
def JArr.ofList : List JVal → JArr
  | [] => .nil
  | v :: vs => .cons v (JArr.ofList vs)

/-- Build an object field list from a list of pairs. -/
def JFields.ofList : List (JStr × JVal) → JFields
  | [] => .nil
  | (k, v) :: fs => .cons k v (JFields.ofList fs)

/-- Is the value the `undefined` marker? -/
def JVal.isUndef : JVal → Bool
  | .jundef => true
  | _ => false

/-- The field list of an object as a list of pairs. -/
def JFields.toList : JFields → List (JStr × JVal)
  | .nil => []
  | .cons k v rest => (k, v) :: JFields.toList rest

/-- Object value from a list of key/value pairs. -/
def jsObj (fs : List (JStr × JVal)) : JVal := .jobj (JFields.ofList fs)

/-- Array value from a list. -/
def jsArr (vs : List JVal) : JVal := .jarr (JArr.ofList vs)

/-! ### Key ordering (default `Array.prototype.sort` on strings) -/

/-- Strict lexicographic order on code-unit sequences: the comparison the
default JavaScript sort applies to strings. -/
def unitsLt : List Nat → List Nat → Bool
  | [], [] => false
  | [], _ :: _ => true
  | _ :: _, [] => false
  | a :: as, b :: bs => if a < b then true else if b < a then false else unitsLt as bs

/-- Reflexive lexicographic order on code-unit sequences. -/
def unitsLe (a b : List Nat) : Bool := !unitsLt b a

/-- Insert a rendered field into a list sorted ascending by key
(stable: an incoming pair lands before an equal key). -/
def insertPair (p : JStr × JStr) : List (JStr × JStr) → List (JStr × JStr)
  | [] => [p]
  | q :: qs => if unitsLt q.1 p.1 then q :: insertPair p qs else p :: q :: qs

/-- Insertion sort of rendered fields ascending by key: the
`Object.keys(...).sort()` of the source, applied to the key of each
retained field. -/
def sortPairs : List (JStr × JStr) → List (JStr × JStr)
  | [] => []
  | p :: ps => insertPair p (sortPairs ps)

/-- Stable insertion into a list sorted by the strict precedence
`ltB` (an incoming element lands before anything it does not strictly
follow). -/
def insertSorted {α : Type} (ltB : α → α → Bool) (p : α) : List α → List α
  | [] => [p]
  | q :: qs => if ltB q p then q :: insertSorted ltB p qs else p :: q :: qs

/-- Stable insertion sort by the strict precedence `ltB`. -/
def sortByLt {α : Type} (ltB : α → α → Bool) : List α → List α
  | [] => []
  | p :: ps => insertSorted ltB p (sortByLt ltB ps)

/-- Join rendered elements with commas. -/
def joinComma : List JStr → JStr
  | [] => []
  | [x] => x
  | x :: xs => x ++ 44 :: joinComma xs

/-! ### `canonicalize` (src/utils/canonicalize.ts)

The source sorts the defined keys first and then renders each value; the
embedding renders each defined field first and then sorts the rendered
pairs by raw key.  Rendering one field never depends on its neighbours,
so the output is identical; the reordering makes the recursion
structural. -/

mutual
/-- `canonicalize` on a value.  `undefined` and `null` render as `null`;
booleans and numbers by their literals; strings by the JSON string
escape; arrays element-wise in order; objects by their defined fields
sorted ascending by key. -/
def canonV : JVal → Except String JStr
  | .jundef => .ok (u "null")
  | .jnull => .ok (u "null")
  | .jbool b => .ok (if b then u "true" else u "false")
  | .jnum q => canonNumber q
  | .jstr s => .ok (jsonQuote s)
  | .jarr xs =>
    match canonArr xs with
    | .error e => .error e
    | .ok es => .ok (91 :: joinComma es ++ [93])
  | .jobj fs =>
    match canonFieldsList fs with
    | .error e => .error e
    | .ok ps =>
      .ok (123 :: joinComma ((sortPairs ps).map fun p => jsonQuote p.1 ++ 58 :: p.2) ++ [125])

/-- Render every array element. -/
def canonArr : JArr → Except String (List JStr)
  | .nil => .ok []
  | .cons v rest =>
    match canonV v with
    | .error e => .error e
    | .ok e =>
      match canonArr rest with
      | .error e2 => .error e2
      | .ok es => .ok (e :: es)

/-- Render every field whose value is defined, keeping the raw key. -/
def canonFieldsList : JFields → Except String (List (JStr × JStr))
  | .nil => .ok []
  | .cons k v rest =>
    if v.isUndef then canonFieldsList rest
    else
      match canonV v with
      | .error e => .error e
      | .ok e =>
        match canonFieldsList rest with
        | .error e2 => .error e2
        | .ok es => .ok ((k, e) :: es)
end

/-- The keys of the canonical rendering of an object's field list, in
output order: defined keys only, sorted by the default JavaScript sort. -/
def canonKeys (fs : JFields) : Except String (List JStr) :=
  match canonFieldsList fs with
  | .error e => .error e
  | .ok ps => .ok ((sortPairs ps).map Prod.fst)

/-! ### SHA-256 (src/utils/id.ts) -/

/-- 2^32. -/
def w32 : Nat := 4294967296

/-- Addition modulo 2^32. -/
def add32 (a b : Nat) : Nat := (a + b) % w32

/-- Three-way exclusive or. -/
def xor3 (a b c : Nat) : Nat := Nat.xor (Nat.xor a b) c

/-- Right rotation of a 32-bit word. -/
def rotr (k n : Nat) : Nat := (n / 2 ^ k + n % 2 ^ k * 2 ^ (32 - k)) % w32

/-- SHA-256 Σ0. -/
def bsig0 (x : Nat) : Nat := xor3 (rotr 2 x) (rotr 13 x) (rotr 22 x)

/-- SHA-256 Σ1. -/
def bsig1 (x : Nat) : Nat := xor3 (rotr 6 x) (rotr 11 x) (rotr 25 x)

/-- SHA-256 σ0. -/
def ssig0 (x : Nat) : Nat := xor3 (rotr 7 x) (rotr 18 x) (x / 2 ^ 3)

/-- SHA-256 σ1. -/
def ssig1 (x : Nat) : Nat := xor3 (rotr 17 x) (rotr 19 x) (x / 2 ^ 10)

/-- SHA-256 Ch. -/
def chF (e f g : Nat) : Nat := Nat.xor (Nat.land e f) (Nat.land (w32 - 1 - e) g)

/-- SHA-256 Maj. -/
def majF (a b c : Nat) : Nat :=
  Nat.xor (Nat.xor (Nat.land a b) (Nat.land a c)) (Nat.land b c)

/-- The 64 SHA-256 round constants. -/
def K256 : List Nat :=
  [1116352408, 1899447441, 3049323471, 3921009573, 961987163, 1508970993, 2453635748,
   2870763221, 3624381080, 310598401, 607225278, 1426881987, 1925078388, 2162078206,
   2614888103, 3248222580, 3835390401, 4022224774, 264347078, 604807628, 770255983,
   1249150122, 1555081692, 1996064986, 2554220882, 2821834349, 2952996808, 3210313671,
   3336571891, 3584528711, 113926993, 338241895, 666307205, 773529912, 1294757372,
   1396182291, 1695183700, 1986661051, 2177026350, 2456956037, 2730485921, 2820302411,
   3259730800, 3345764771, 3516065817, 3600352804, 4094571909, 275423344, 430227734,
   506948616, 659060556, 883997877, 958139571, 1322822218, 1537002063, 1747873779,
   1955562222, 2024104815, 2227730452, 2361852424, 2428436474, 2756734187, 3204031479,
   3329325298]

/-- Big-endian bytes of a 64-bit length value. -/
def be64 (n : Nat) : List Nat :=
  [n / 2 ^ 56 % 256, n / 2 ^ 48 % 256, n / 2 ^ 40 % 256, n / 2 ^ 32 % 256,
   n / 2 ^ 24 % 256, n / 2 ^ 16 % 256, n / 2 ^ 8 % 256, n % 256]

/-- SHA-256 padding: 0x80, zeros to 56 mod 64, then the bit length. -/
def sha256Pad (msg : List Nat) : List Nat :=
  msg ++ 128 :: List.replicate ((119 - msg.length % 64) % 64) 0 ++ be64 (8 * msg.length)

/-- Group bytes into big-endian 32-bit words. -/
def toWords : List Nat → List Nat
  | a :: b :: c :: d :: rest => (a * 16777216 + b * 65536 + c * 256 + d) :: toWords rest
  | _ => []

/-- Split a word list into 16-word blocks (fuel-driven). -/
def chunks16 (fuel : Nat) (ws : List Nat) : List (List Nat) :=
  match fuel, ws with
  | 0, _ => []
  | _, [] => []
  | fuel + 1, ws => ws.take 16 :: chunks16 fuel (ws.drop 16)

/-- Extend the message schedule by `fuel` words; `wrev` holds the words
produced so far, most recent first. -/
def extendW (fuel : Nat) (wrev : List Nat) : List Nat :=
  match fuel with
  | 0 => wrev.reverse
  | fuel + 1 =>
    extendW fuel
      (add32 (add32 (ssig1 (wrev.getD 1 0)) (wrev.getD 6 0))
        (add32 (ssig0 (wrev.getD 14 0)) (wrev.getD 15 0)) :: wrev)

/-- SHA-256 working state. -/
structure H8 where
  a : Nat
  b : Nat
  c : Nat
  d : Nat
  e : Nat
  f : Nat
  g : Nat
  h : Nat

/-- The SHA-256 initial hash value. -/
def sha256Init : H8 :=
  ⟨1779033703, 3144134277, 1013904242, 2773480762, 1359893119, 2600822924, 528734635,
   1541459225⟩

/-- One SHA-256 round. -/
def compressStep (st : H8) (kw : Nat × Nat) : H8 :=
  let t1 := add32 (add32 st.h (bsig1 st.e)) (add32 (chF st.e st.f st.g) (add32 kw.1 kw.2))
  let t2 := add32 (bsig0 st.a) (majF st.a st.b st.c)
  ⟨add32 t1 t2, st.a, st.b, st.c, add32 st.d t1, st.e, st.f, st.g⟩

/-- Compress one 16-word block into the state. -/
def compressBlock (st : H8) (block : List Nat) : H8 :=
  let w := extendW 48 block.reverse
  let z := (K256.zip w).foldl compressStep st
  ⟨add32 st.a z.a, add32 st.b z.b, add32 st.c z.c, add32 st.d z.d,
   add32 st.e z.e, add32 st.f z.f, add32 st.g z.g, add32 st.h z.h⟩

/-- Lowercase hex code units of a 32-bit word. -/
def hexWord (n : Nat) : List Nat :=
  [hexNibble (n / 2 ^ 28), hexNibble (n / 2 ^ 24), hexNibble (n / 2 ^ 20),
   hexNibble (n / 2 ^ 16), hexNibble (n / 2 ^ 12), hexNibble (n / 2 ^ 8),
   hexNibble (n / 2 ^ 4), hexNibble n]

/-- SHA-256 digest of a byte sequence, as 64 lowercase hex code units. -/
def sha256Hex (msg : List Nat) : JStr :=
  let z := (chunks16 (msg.length + 72) (toWords (sha256Pad msg))).foldl compressBlock sha256Init
  hexWord z.a ++ hexWord z.b ++ hexWord z.c ++ hexWord z.d ++ hexWord z.e ++ hexWord z.f ++
    hexWord z.g ++ hexWord z.h

/-- `deterministicId` of `src/utils/id.ts`: canonicalize, UTF-8 encode,
SHA-256, lowercase hex. -/
def deterministicId (v : JVal) : Except String JStr :=
  match canonV v with
  | .error e => .error e
  | .ok c => .ok (sha256Hex (utf8Encode c))

/-- Is the code unit a lowercase hex digit (`[a-f0-9]`)? -/
def isHexUnit (c : Nat) : Bool := decide ((48 ≤ c ∧ c ≤ 57) ∨ (97 ≤ c ∧ c ≤ 102))

/-- `isValidId` of `src/utils/id.ts`: `^[a-f0-9]{64}$`. -/
def isValidId (s : JStr) : Bool := s.length == 64 && s.all isHexUnit

/-! ### Orders on strings used by the spec claims -/

/-- The reflexive key order as a proposition (code-unit lexicographic,
the order realized by the default JavaScript sort). -/
def CuLe (a b : JStr) : Prop := unitsLe a b = true

/-- The pairwise key order on rendered fields. -/
def FieldLe (q r : JStr × JStr) : Prop := CuLe q.1 r.1

/-- Ascending by code-unit order, checked on adjacent entries. -/
def cuSortedB : List JStr → Bool
  | [] => true
  | [_] => true
  | a :: b :: r => unitsLe a b && cuSortedB (b :: r)

/-- Ascending by code-point order (the order named by the specification),
checked on adjacent entries. -/
def cpSortedB : List JStr → Bool
  | [] => true
  | [_] => true
  | a :: b :: r => unitsLe (codePoints a) (codePoints b) && cpSortedB (b :: r)

/-- The string contains no surrogate code units (it is confined to the
basic multilingual plane). -/
def noSurr (s : JStr) : Bool := s.all fun c => !isSurr c

/-! ### Schema checks (src/schemas, zod)

`z.string().datetime()` with default options accepts
`\d4-\d2-\d2T\d2:\d2:\d2(.\d+)?Z`; the entity schemas further check id
shape, string minima and numeric ranges.  JavaScript `number` fields
are embedded as `Rat` (integers as `Int` where zod demands `.int()`),
with range checks spelled through decidable `Rat` comparisons. -/

/-- Is the code unit a decimal digit? -/
def isDigit (c : Nat) : Bool := decide (48 ≤ c ∧ c ≤ 57)

/-- Consume exactly `n` decimal digits. -/
def takeDigits : List Nat → Nat → Option (List Nat)
  | rest, 0 => some rest
  | c :: rest, n + 1 => if isDigit c then takeDigits rest n else none
  | [], _ + 1 => none

/-- Consume one expected code unit. -/
def expectUnit (c : Nat) : List Nat → Option (List Nat)
  | d :: rest => if d = c then some rest else none
  | [] => none

/-- After at least one fraction digit: more digits, then a final `Z`. -/
def digitsThenZ : List Nat → Bool
  | [90] => true
  | c :: rest => isDigit c && digitsThenZ rest
  | [] => false

/-- The `z.string().datetime()` shape check (no offset, any precision). -/
def isDatetime (s : JStr) : Bool :=
  match (do
    let r ← takeDigits s 4
    let r ← expectUnit 45 r
    let r ← takeDigits r 2
    let r ← expectUnit 45 r
    let r ← takeDigits r 2
    let r ← expectUnit 84 r
    let r ← takeDigits r 2
    let r ← expectUnit 58 r
    let r ← takeDigits r 2
    let r ← expectUnit 58 r
    takeDigits r 2 : Option (List Nat)) with
  | none => false
  | some [90] => true
  | some (46 :: c :: rest) => isDigit c && digitsThenZ (c :: rest)
  | some _ => false

/-! ### Entities (src/schemas/knowledge.ts, src/schemas/bbon.ts) -/

/-- `KnowledgeType` enumeration. -/
inductive KnowledgeType : Type
  | fact
  | pattern
  | procedure
  | decision
deriving DecidableEq

/-- The stored string of a knowledge type. -/
def KnowledgeType.toJs : KnowledgeType → JStr
  | .fact => u "fact"
  | .pattern => u "pattern"
  | .procedure => u "procedure"
  | .decision => u "decision"

/-- `AttemptStatus` enumeration. -/
inductive AttemptStatus : Type
  | pending
  | running
  | completed
  | failed
deriving DecidableEq

/-- The stored string of an attempt status. -/
def AttemptStatus.toJs : AttemptStatus → JStr
  | .pending => u "pending"
  | .running => u "running"
  | .completed => u "completed"
  | .failed => u "failed"

/-- A `knowledge_items` row. -/
structure KnowledgeItem : Type where
  id : JStr
  type : KnowledgeType
  text : JStr
  scope : JStr
  module : Option JStr
  metaTags : List JStr
  confidence : Rat
  helpful : Int
  harmful : Int
  createdAt : JStr
  updatedAt : JStr

/-- Creation inputs of a knowledge item (`Omit<KnowledgeItem,
'id' | 'createdAt' | 'updatedAt'>`). -/
structure KnowledgeItemInput : Type where
  type : KnowledgeType
  text : JStr
  scope : JStr
  module : Option JStr
  metaTags : List JStr
  confidence : Rat
  helpful : Int
  harmful : Int

/-- The creation-input object as the JavaScript value hashed by
`deterministicId` (an absent optional and an `undefined` member
canonicalize identically, so `module := none` renders as omitted). -/
def KnowledgeItemInput.toJVal (x : KnowledgeItemInput) : JVal :=
  jsObj
    [(u "type", .jstr x.type.toJs),
     (u "text", .jstr x.text),
     (u "scope", .jstr x.scope),
     (u "module", match x.module with | some m => .jstr m | none => .jundef),
     (u "metaTags", jsArr (x.metaTags.map .jstr)),
     (u "confidence", .jnum x.confidence),
     (u "helpful", .jnum (mkRat x.helpful 1)),
     (u "harmful", .jnum (mkRat x.harmful 1))]

/-- `KnowledgeItemSchema.parse` as a boolean check. -/
def validKnowledgeItem (x : KnowledgeItem) : Bool :=
  isValidId x.id &&
  decide (1 ≤ x.text.length) &&
  decide (1 ≤ x.scope.length) &&
  decide (0 ≤ x.confidence) && decide (x.confidence ≤ 1) &&
  decide (0 ≤ x.helpful) && decide (0 ≤ x.harmful) &&
  isDatetime x.createdAt && isDatetime x.updatedAt

/-- An `attempts` row. -/
structure Attempt : Type where
  id : JStr
  runId : JStr
  ordinal : Int
  status : AttemptStatus
  result : JFields
  createdAt : JStr
  completedAt : Option JStr

/-- Creation inputs of an attempt (`Omit<Attempt, 'id' | 'createdAt'>`). -/
structure AttemptInput : Type where
  runId : JStr
  ordinal : Int
  status : AttemptStatus
  result : JFields
  completedAt : Option JStr

/-- The creation-input object hashed by `deterministicId`. -/
def AttemptInput.toJVal (x : AttemptInput) : JVal :=
  jsObj
    [(u "runId", .jstr x.runId),
     (u "ordinal", .jnum (mkRat x.ordinal 1)),
     (u "status", .jstr x.status.toJs),
     (u "result", .jobj x.result),
     (u "completedAt", match x.completedAt with | some t => .jstr t | none => .jundef)]

/-- `AttemptSchema.parse` as a boolean check. -/
def validAttempt (x : Attempt) : Bool :=
  isValidId x.id &&
  decide (0 ≤ x.ordinal) &&
  isDatetime x.createdAt &&
  (match x.completedAt with | some t => isDatetime t | none => true)

/-! ### Repository adds (src/store/repository.ts, extended Repository)

Each `add` computes the deterministic id, stamps the clock, validates
through the zod schema, and executes `INSERT OR IGNORE` keyed on the
primary key; when the insert is a no-op it re-reads and returns the
already-stored row.  The SQLite table is modelled as the list of its
rows in insertion order; the clock (`new Date().toISOString()`) is an
explicit argument. -/

/-- `Repository.addKnowledgeItem`. -/
def addKnowledgeItem (now : JStr) (st : List KnowledgeItem) (x : KnowledgeItemInput) :
    Except String (KnowledgeItem × List KnowledgeItem) :=
  match deterministicId x.toJVal with
  | .error e => .error e
  | .ok i =>
    let full : KnowledgeItem :=
      { id := i, type := x.type, text := x.text, scope := x.scope, module := x.module,
        metaTags := x.metaTags, confidence := x.confidence, helpful := x.helpful,
        harmful := x.harmful, createdAt := now, updatedAt := now }
    if validKnowledgeItem full then
      match st.find? (fun r => r.id == i) with
      | some r => .ok (r, st)
      | none => .ok (full, st ++ [full])
    else .error "ValidationError"

/-- Concrete clock string used by witnesses. -/
def wNow : JStr := u "2024-01-01T00:00:00.000Z"

/-- Concrete knowledge-item input used by the C5 witness. -/
def c5KInput : KnowledgeItemInput :=
  { type := .fact, text := u "t", scope := u "repo", module := none, metaTags := [],
    confidence := 1, helpful := 0, harmful := 0 }

/-- The row stored for `c5KInput` (its id is the SHA-256 of the
canonical creation inputs). -/
def c5KRow : KnowledgeItem :=
  { id := u "7406e67df8ec81d56a853e9f9496711fa3678fbe38d3d63b6acd14062648ed8e",
    type := .fact, text := u "t", scope := u "repo", module := none, metaTags := [],
    confidence := 1, helpful := 0, harmful := 0, createdAt := wNow, updatedAt := wNow }

/-- Concrete attempt input used by the C5 witness. -/
def c5AInput : AttemptInput :=
  { runId := u "r", ordinal := 0, status := .pending, result := .nil, completedAt := none }

/-- The row stored for `c5AInput`. -/
def c5ARow : Attempt :=
  { id := u "99b29e93398de3c8fc5490c68515c97812f3385509cca61e5a09ecaf8c655514",
    runId := u "r", ordinal := 0, status := .pending, result := .nil, createdAt := wNow,
    completedAt := none }

/-- `Repository.addAttempt`. -/
def addAttempt (now : JStr) (st : List Attempt) (x : AttemptInput) :
    Except String (Attempt × List Attempt) :=
  match deterministicId x.toJVal with
  | .error e => .error e
  | .ok i =>
    let full : Attempt :=
      { id := i, runId := x.runId, ordinal := x.ordinal, status := x.status,
        result := x.result, createdAt := now, completedAt := x.completedAt }
    if validAttempt full then
      match st.find? (fun r => r.id == i) with
      | some r => .ok (r, st)
      | none => .ok (full, st ++ [full])
    else .error "ValidationError"

/-! ### Attempt patching (src/unnamed/part_015, `Repository.updateAttempt`) -/

/-- The patch accepted by `updateAttempt`
(`{ status?, result?, completedAt? }`). -/
structure AttemptUpdates : Type where
  status : Option AttemptStatus
  result : Option JFields
  completedAt : Option JStr

/-- Application of the collected `SET` fields to one row: each supplied
field overwrites the column, each omitted field leaves it. -/
def applyAttemptPatch (upd : AttemptUpdates) (r : Attempt) : Attempt :=
  { r with
    status := upd.status.getD r.status,
    result := upd.result.getD r.result,
    completedAt := match upd.completedAt with | some t => some t | none => r.completedAt }

/-- `Repository.updateAttempt`: builds the `SET` list from the supplied
fields and runs `UPDATE attempts ... WHERE id = ?`; when no field is
supplied the statement is skipped.  No status-transition validation is
performed. -/
def updateAttempt (st : List Attempt) (i : JStr) (upd : AttemptUpdates) : List Attempt :=
  match upd.status, upd.result, upd.completedAt with
  | none, none, none => st
  | _, _, _ => st.map fun r => if r.id == i then applyAttemptPatch upd r else r

/-! ### Feedback counters (src/store/repository.ts,
`Repository.updateKnowledgeItemFeedback`)

A single SQL `UPDATE` adds the deltas (`helpful = helpful + ?`,
`harmful = harmful + ?`) and refreshes `updated_at`.  The
`CHECK(helpful >= 0)` and `CHECK(harmful >= 0)` constraints of
`knowledge_items` (0001_init.sql) abort the whole statement — leaving
every row unchanged — when an updated row would go negative. -/

/-- `Repository.updateKnowledgeItemFeedback`. -/
def updateKnowledgeItemFeedback (now : JStr) (st : List KnowledgeItem) (i : JStr)
    (helpfulDelta harmfulDelta : Int) : Except String (List KnowledgeItem) :=
  if st.all (fun r =>
      if r.id == i then
        decide (0 ≤ r.helpful + helpfulDelta) && decide (0 ≤ r.harmful + harmfulDelta)
      else true) then
    .ok (st.map fun r =>
      if r.id == i then
        { r with
          helpful := r.helpful + helpfulDelta
          harmful := r.harmful + harmfulDelta
          updatedAt := now }
      else r)
  else .error "SqliteError: CHECK constraint failed"

/-- A sequence of feedback updates, stopping at the first failed
statement as the throwing caller would. -/
def applyFeedbackSeq (now : JStr) (st : List KnowledgeItem) (i : JStr) :
    List (Int × Int) → Except String (List KnowledgeItem)
  | [] => .ok st
  | d :: ds =>
    match updateKnowledgeItemFeedback now st i d.1 d.2 with
    | .error e => .error e
    | .ok st2 => applyFeedbackSeq now st2 i ds

/-! ### Judge pairs and outcomes (src/unnamed/part_015,
`Repository.addJudgePair` / `Repository.addJudgeOutcome`;
src/store/migrations/0002_bbon_core.sql) -/

/-- A `judge_pairs` row. -/
structure JudgePair : Type where
  id : JStr
  runId : JStr
  leftAttemptId : JStr
  rightAttemptId : JStr
  promptVersion : JStr
  createdAt : JStr
deriving DecidableEq

/-- Creation inputs of a judge pair. -/
structure JudgePairInput : Type where
  runId : JStr
  leftAttemptId : JStr
  rightAttemptId : JStr
  promptVersion : JStr
deriving DecidableEq

/-- The creation-input object hashed by `deterministicId`. -/
def JudgePairInput.toJVal (x : JudgePairInput) : JVal :=
  jsObj
    [(u "runId", .jstr x.runId),
     (u "leftAttemptId", .jstr x.leftAttemptId),
     (u "rightAttemptId", .jstr x.rightAttemptId),
     (u "promptVersion", .jstr x.promptVersion)]

/-- `JudgePairSchema.parse` as a boolean check. -/
def validJudgePair (x : JudgePair) : Bool := isValidId x.id && isDatetime x.createdAt

/-- The ordered triple protected by
`UNIQUE(run_id, left_attempt_id, right_attempt_id)`. -/
def pairTriple (r : JudgePair) : JStr × JStr × JStr :=
  (r.runId, r.leftAttemptId, r.rightAttemptId)

/-- `Repository.addJudgePair`: `INSERT OR IGNORE` is a no-op when either
the primary key or the ordered `UNIQUE(run_id, left_attempt_id,
right_attempt_id)` constraint conflicts; on a no-op the source re-reads
by id (`getJudgePair(id)`), which can be absent when only the unique
triple conflicted, hence the `Option`. -/
def addJudgePair (now : JStr) (st : List JudgePair) (x : JudgePairInput) :
    Except String (Option JudgePair × List JudgePair) :=
  match deterministicId x.toJVal with
  | .error e => .error e
  | .ok i =>
    let full : JudgePair :=
      { id := i, runId := x.runId, leftAttemptId := x.leftAttemptId,
        rightAttemptId := x.rightAttemptId, promptVersion := x.promptVersion,
        createdAt := now }
    if validJudgePair full then
      if st.any (fun r =>
          r.id == i ||
          (r.runId == x.runId && r.leftAttemptId == x.leftAttemptId &&
            r.rightAttemptId == x.rightAttemptId)) then
        .ok (st.find? (fun r => r.id == i), st)
      else .ok (some full, st ++ [full])
    else .error "ValidationError"

/-- A `judge_outcomes` row.  The table has no uniqueness constraint on
`pair_id`; only the primary key protects against duplicates. -/
structure JudgeOutcome : Type where
  id : JStr
  pairId : JStr
  winnerAttemptId : JStr
  confidence : Rat
  rationaleText : JStr
  narrativeDiff : JFields
  model : JStr
  createdAt : JStr

/-- Creation inputs of a judge outcome. -/
structure JudgeOutcomeInput : Type where
  pairId : JStr
  winnerAttemptId : JStr
  confidence : Rat
  rationaleText : JStr
  narrativeDiff : JFields
  model : JStr

/-- The creation-input object hashed by `deterministicId`. -/
def JudgeOutcomeInput.toJVal (x : JudgeOutcomeInput) : JVal :=
  jsObj
    [(u "pairId", .jstr x.pairId),
     (u "winnerAttemptId", .jstr x.winnerAttemptId),
     (u "confidence", .jnum x.confidence),
     (u "rationaleText", .jstr x.rationaleText),
     (u "narrativeDiff", .jobj x.narrativeDiff),
     (u "model", .jstr x.model)]

/-- `JudgeOutcomeSchema.parse` as a boolean check. -/
def validJudgeOutcome (x : JudgeOutcome) : Bool :=
  isValidId x.id && decide (0 ≤ x.confidence) && decide (x.confidence ≤ 1) &&
    isDatetime x.createdAt

/-- `Repository.addJudgeOutcome`: `INSERT OR IGNORE` on the primary key
only; a second outcome for the same `pair_id` with different content has
a different id and is inserted as a second row. -/
def addJudgeOutcome (now : JStr) (st : List JudgeOutcome) (x : JudgeOutcomeInput) :
    Except String (Option JudgeOutcome × List JudgeOutcome) :=
  match deterministicId x.toJVal with
  | .error e => .error e
  | .ok i =>
    let full : JudgeOutcome :=
      { id := i, pairId := x.pairId, winnerAttemptId := x.winnerAttemptId,
        confidence := x.confidence, rationaleText := x.rationaleText,
        narrativeDiff := x.narrativeDiff, model := x.model, createdAt := now }
    if validJudgeOutcome full then
      if st.any (fun r => r.id == i) then
        .ok (st.find? (fun r => r.id == i), st)
      else .ok (some full, st ++ [full])
    else .error "ValidationError"

/-! ### Traces and insights (src/schemas/knowledge.ts) -/

/-- Error severity enumeration. -/
inductive Severity : Type
  | error
  | warning
  | info
deriving DecidableEq

/-- Execution status enumeration. -/
inductive ExecStatus : Type
  | pass
  | fail
deriving DecidableEq

/-- Trace outcome enumeration. -/
inductive TraceOutcome : Type
  | success
  | failure
  | partial2
deriving DecidableEq

/-- One error entry of an execution. -/
structure TraceError : Type where
  tool : JStr
  severity : Severity
  message : JStr
  file : JStr
  line : Int
  column : Option Int
deriving DecidableEq

/-- One execution within a trace. -/
structure Execution : Type where
  runner : JStr
  command : JStr
  status : ExecStatus
  errors : List TraceError
deriving DecidableEq

/-- A `traces` row. -/
structure Trace : Type where
  id : JStr
  beadId : JStr
  taskDescription : Option JStr
  threadId : Option JStr
  executions : List Execution
  outcome : TraceOutcome
  discoveredIssues : List JStr
  createdAt : JStr
deriving DecidableEq

/-- An `insights` row. -/
structure Insight : Type where
  id : JStr
  pattern : JStr
  description : JStr
  confidence : Rat
  frequency : Int
  relatedBeads : List JStr
  metaTags : List JStr
  createdAt : JStr
deriving DecidableEq

/-- Creation inputs of an insight (`Omit<Insight, 'id' | 'createdAt'>`). -/
structure InsightInput : Type where
  pattern : JStr
  description : JStr
  confidence : Rat
  frequency : Int
  relatedBeads : List JStr
  metaTags : List JStr

/-- The creation-input object hashed by `deterministicId`. -/
def InsightInput.toJVal (x : InsightInput) : JVal :=
  jsObj
    [(u "pattern", .jstr x.pattern),
     (u "description", .jstr x.description),
     (u "confidence", .jnum x.confidence),
     (u "frequency", .jnum (mkRat x.frequency 1)),
     (u "relatedBeads", jsArr (x.relatedBeads.map .jstr)),
     (u "metaTags", jsArr (x.metaTags.map .jstr))]

/-- `InsightSchema.parse` as a boolean check. -/
def validInsight (x : Insight) : Bool :=
  isValidId x.id &&
  decide (1 ≤ x.pattern.length) &&
  decide (1 ≤ x.description.length) &&
  decide (0 ≤ x.confidence) && decide (x.confidence ≤ 1) &&
  decide (1 ≤ x.frequency) &&
  isDatetime x.createdAt

/-- `Repository.addInsight`. -/
def addInsight (now : JStr) (st : List Insight) (x : InsightInput) :
    Except String (Insight × List Insight) :=
  match deterministicId x.toJVal with
  | .error e => .error e
  | .ok i =>
    let full : Insight :=
      { id := i, pattern := x.pattern, description := x.description,
        confidence := x.confidence, frequency := x.frequency,
        relatedBeads := x.relatedBeads, metaTags := x.metaTags, createdAt := now }
    if validInsight full then
      match st.find? (fun r => r.id == i) with
      | some r => .ok (r, st)
      | none => .ok (full, st ++ [full])
    else .error "ValidationError"

/-! ### Reflect (`reflectCommand`, src/cli/commands/reflect.ts)

The command loads all failure traces and the current insight table,
groups error entries of failing executions by `tool:file:message`
(empty trimmed messages skipped), and inserts one candidate insight per
group whose confidence — the fraction of failed traces containing the
group, capped at 1 — reaches 0.5 and whose `(pattern, description)` is
not already present.  The JavaScript `Map` and `Set` are insertion
ordered; they are modelled by association lists with first-occurrence
order.  Floating-point division is modelled by exact rational
division.  The returned display summaries (id, pattern, confidence,
frequency, sorted for output) are projections of the inserted rows and
are not separately modelled; no claim touches them. -/

/-- Is the code unit trimmed by `String.prototype.trim`? -/
def isWsUnit (c : Nat) : Bool :=
  decide (c = 32 ∨ (9 ≤ c ∧ c ≤ 13) ∨ c = 160 ∨ c = 65279)

/-- Drop leading whitespace. -/
def trimLeading : JStr → JStr
  | [] => []
  | c :: rest => if isWsUnit c then trimLeading rest else c :: rest

/-- `String.prototype.trim`. -/
def jsTrim (s : JStr) : JStr := ((trimLeading s).reverse |> trimLeading).reverse

/-- `Math.min` on the embedded numbers. -/
def ratMin (a b : Rat) : Rat := if Rat.blt b a then b else a

/-- JavaScript `Set.add`: insertion-ordered, duplicate-free. -/
def setAdd (s : List JStr) (x : JStr) : List JStr := if s.contains x then s else s ++ [x]

/-- One aggregated error group of the reflect pass. -/
structure ErrorPattern : Type where
  message : JStr
  file : JStr
  tool : JStr
  occurrences : Int
  traceIds : List JStr
deriving DecidableEq

/-- Fold one error entry of one trace into the group map. -/
def recordError (traceId : JStr) (acc : List (JStr × ErrorPattern)) (err : TraceError) :
    List (JStr × ErrorPattern) :=
  let message := jsTrim err.message
  if message.isEmpty then acc
  else
    let key := err.tool ++ 58 :: err.file ++ 58 :: message
    if acc.any (fun p => p.1 == key) then
      acc.map fun p =>
        if p.1 == key then
          (p.1, { p.2 with
            occurrences := p.2.occurrences + 1
            traceIds := setAdd p.2.traceIds traceId })
        else p
    else
      acc ++ [(key,
        { message := message, file := err.file, tool := err.tool, occurrences := 1,
          traceIds := [traceId] })]

/-- The group map over all failing executions of all failed traces. -/
def collectPatterns (failedTraces : List Trace) : List (JStr × ErrorPattern) :=
  failedTraces.foldl
    (fun acc trace =>
      trace.executions.foldl
        (fun acc2 ex =>
          if ex.status = .fail then ex.errors.foldl (recordError trace.id) acc2 else acc2)
        acc)
    []

/-- `listInsights()` with no filters: `ORDER BY confidence DESC,
frequency DESC` (ties in scan order). -/
def listInsights (st : List Insight) : List Insight :=
  sortByLt
    (fun q p =>
      Rat.blt p.confidence q.confidence ||
        (p.confidence == q.confidence && decide (p.frequency < q.frequency)))
    st

/-- The candidate-insertion loop over the group map. -/
def reflectInsert (now : JStr) (failedTraces : List Trace) (existing : List Insight) :
    List (JStr × ErrorPattern) → List Insight → Except String (List Insight)
  | [], store => .ok store
  | (_, pat) :: rest, store =>
    let confidence :=
      if 0 < failedTraces.length then
        ratMin (mkRat pat.traceIds.length failedTraces.length) 1
      else 0
    if decide (mkRat 1 2 ≤ confidence) then
      let patternText := pat.tool ++ u " error in " ++ pat.file
      if existing.any fun ins =>
          ins.pattern == patternText && ins.description == pat.message then
        reflectInsert now failedTraces existing rest store
      else
        match addInsight now store
          { pattern := patternText, description := pat.message, confidence := confidence,
            frequency := pat.occurrences,
            relatedBeads := (failedTraces.map Trace.beadId).filter (fun b => !b.isEmpty),
            metaTags := [pat.tool, u "error-pattern"].filter (fun t => !t.isEmpty) } with
        | .error e => .error e
        | .ok (_, store2) => reflectInsert now failedTraces existing rest store2
    else reflectInsert now failedTraces existing rest store

/-- `reflectCommand`, database effects: `failedTraces` is the result of
`listTracesByOutcome('failure')` and `insightsStore` the insight table;
the existing-insight view is read once, before the loop. -/
def reflectCommand (now : JStr) (failedTraces : List Trace) (insightsStore : List Insight) :
    Except String (List Insight) :=
  reflectInsert now failedTraces (listInsights insightsStore) (collectPatterns failedTraces)
    insightsStore

/-! ### Claim C3, specification-side definitions -/

/-- Modelled from the spec: the failed traces that contain a given error
group — a failing execution with an error whose tool, file and trimmed
non-empty message equal the group. -/
def specContainingTraces (failedTraces : List Trace) (tool file message : JStr) :
    List Trace :=
  failedTraces.filter fun t =>
    t.executions.any fun ex =>
      ex.status == .fail &&
        ex.errors.any fun err =>
          err.tool == tool && err.file == file && jsTrim err.message == message &&
            !(jsTrim err.message).isEmpty

/-- First-occurrence deduplication. -/
def distinctJS (l : List JStr) : List JStr := l.foldl setAdd []

/-- Modelled from the spec: `relatedSubjects = distinct non-empty
subject ids from the containing traces`. -/
def specRelatedSubjects (failedTraces : List Trace) (tool file message : JStr) : List JStr :=
  distinctJS
    (((specContainingTraces failedTraces tool file message).map Trace.beadId).filter
      fun b => !b.isEmpty)

/-- Concrete error entry `(tool t, file f, message m)` for C3. -/
def c3E1 : TraceError :=
  { tool := u "t", severity := .error, message := u "m", file := u "f", line := 1,
    column := none }

/-- Concrete error entry with an empty message (skipped by reflect). -/
def c3E2 : TraceError :=
  { tool := u "t", severity := .error, message := u "", file := u "f", line := 1,
    column := none }

/-- Failing execution containing `c3E1`. -/
def c3X1 : Execution :=
  { runner := u "npm", command := u "test", status := .fail, errors := [c3E1] }

/-- Failing execution containing only the empty-message entry. -/
def c3X2 : Execution :=
  { runner := u "npm", command := u "test", status := .fail, errors := [c3E2] }

/-- Failed trace of subject `b1` containing the group `(t, f, m)`. -/
def c3T1 : Trace :=
  { id := u "t1", beadId := u "b1", taskDescription := none, threadId := none,
    executions := [c3X1], outcome := .failure, discoveredIssues := [], createdAt := wNow }

/-- Failed trace of subject `b2` NOT containing the group `(t, f, m)`. -/
def c3T2 : Trace :=
  { id := u "t2", beadId := u "b2", taskDescription := none, threadId := none,
    executions := [c3X2], outcome := .failure, discoveredIssues := [], createdAt := wNow }

/-- The insight row reflect inserts for the group `(t, f, m)` over
`[c3T1, c3T2]`. -/
def c3Ins : Insight :=
  { id := u "4c1e23babdaa58e4a718ae704ac0fc2027dc1aebdb295477144a06c0358d6cce",
    pattern := u "t error in f", description := u "m", confidence := mkRat 1 2,
    frequency := 1, relatedBeads := [u "b1", u "b2"],
    metaTags := [u "t", u "error-pattern"], createdAt := wNow }

/-- Concrete terminal-status attempt row used by the C2 counterexample. -/
def c2Row : Attempt :=
  { id := u "a1", runId := u "r", ordinal := 0, status := .completed, result := .nil,
    createdAt := wNow, completedAt := some wNow }

/-- Concrete knowledge-item row with zeroed counters, for C7. -/
def c7Row : KnowledgeItem :=
  { id := u "k", type := .fact, text := u "t", scope := u "repo", module := none,
    metaTags := [], confidence := 1, helpful := 0, harmful := 0, createdAt := wNow,
    updatedAt := wNow }

/-- `c7Row` after the feedback sequence `[(1,2),(3,0)]`. -/
def c7RowAfter : KnowledgeItem :=
  { id := u "k", type := .fact, text := u "t", scope := u "repo", module := none,
    metaTags := [], confidence := 1, helpful := 4, harmful := 2, createdAt := wNow,
    updatedAt := wNow }

/-- Concrete judge-pair input (left `a`, right `b`), for C4. -/
def c4P1 : JudgePairInput :=
  { runId := u "r", leftAttemptId := u "a", rightAttemptId := u "b", promptVersion := u "v1" }

/-- The same unordered attempt pair with the two ids swapped. -/
def c4P2 : JudgePairInput :=
  { runId := u "r", leftAttemptId := u "b", rightAttemptId := u "a", promptVersion := u "v1" }

/-- The row stored for `c4P1`. -/
def c4Row1 : JudgePair :=
  { id := u "a75cd00648960d518d8a1cda2e72f76908f7b71b1ebbfb50172f3151292da088",
    runId := u "r", leftAttemptId := u "a", rightAttemptId := u "b",
    promptVersion := u "v1", createdAt := wNow }

/-- The row stored for `c4P2`. -/
def c4Row2 : JudgePair :=
  { id := u "9d03bb54a6b8eed2650ed084e964e48738ef134aae3a2dd32abd9317ca53470f",
    runId := u "r", leftAttemptId := u "b", rightAttemptId := u "a",
    promptVersion := u "v1", createdAt := wNow }

/-- Concrete judge-outcome input for pair id `p`, for C4. -/
def c4O1 : JudgeOutcomeInput :=
  { pairId := u "p", winnerAttemptId := u "a", confidence := 1, rationaleText := u "x",
    narrativeDiff := .nil, model := u "m" }

/-- A second outcome for the same pair id with different content. -/
def c4O2 : JudgeOutcomeInput :=
  { pairId := u "p", winnerAttemptId := u "b", confidence := 0, rationaleText := u "y",
    narrativeDiff := .nil, model := u "m" }

/-- The row stored for `c4O1`. -/
def c4ORow1 : JudgeOutcome :=
  { id := u "9778db9157b21d6be75e1e4d80d2576be652dfb5763a739ad0edd95cb6215b1e",
    pairId := u "p", winnerAttemptId := u "a", confidence := 1, rationaleText := u "x",
    narrativeDiff := .nil, model := u "m", createdAt := wNow }

/-- The row stored for `c4O2`. -/
def c4ORow2 : JudgeOutcome :=
  { id := u "b322c8b5bdb5d03a756a8e405bf01da26bdde0c2d43802fbde130cfc304773a6",
    pairId := u "p", winnerAttemptId := u "b", confidence := 0, rationaleText := u "y",
    narrativeDiff := .nil, model := u "m", createdAt := wNow }

/-! ### Working memory and memory events (src/schemas/memory.ts;
src/unnamed/part_015, `Repository.upsertWorkingMemory` /
`Repository.recordMemoryEvent`) -/

/-- Working-memory type enumeration (`WorkingMemoryTypeSchema`). -/
inductive WorkingMemoryType : Type
  | summary
  | invariant
  | decision
deriving DecidableEq

/-- The stored string of a working-memory type. -/
def WorkingMemoryType.toJs : WorkingMemoryType → JStr
  | .summary => u "summary"
  | .invariant => u "invariant"
  | .decision => u "decision"

/-- A `working_memory` row. -/
structure WorkingMemory : Type where
  id : JStr
  projectId : JStr
  type : WorkingMemoryType
  contentText : JStr
  provenance : JFields
  updatedAt : JStr

/-- Upsert inputs (`Omit<WorkingMemory, 'id' | 'updatedAt'>`).  Both
callers in the source supply `projectId`, so the `?? '.'` default is
already resolved here. -/
structure WorkingMemoryInput : Type where
  projectId : JStr
  type : WorkingMemoryType
  contentText : JStr
  provenance : JFields

/-- `WorkingMemorySchema.parse` as a boolean check. -/
def validWorkingMemory (x : WorkingMemory) : Bool :=
  isValidId x.id && isDatetime x.updatedAt

/-- `Repository.upsertWorkingMemory`: the id hashes the object holding
`projectId`, `type` and `contentText`; `INSERT ... ON CONFLICT(id) DO
UPDATE` rewrites `content_text`, `provenance_json` and `updated_at` of
the conflicting row (leaving `project_id` and `type`), and the freshly
assembled entry is returned either way. -/
def upsertWorkingMemory (now : JStr) (st : List WorkingMemory) (x : WorkingMemoryInput) :
    Except String (WorkingMemory × List WorkingMemory) :=
  match deterministicId (jsObj
      [(u "projectId", .jstr x.projectId),
       (u "type", .jstr x.type.toJs),
       (u "contentText", .jstr x.contentText)]) with
  | .error e => .error e
  | .ok i =>
    let full : WorkingMemory :=
      { id := i, projectId := x.projectId, type := x.type, contentText := x.contentText,
        provenance := x.provenance, updatedAt := now }
    if validWorkingMemory full then
      if st.any (fun r => r.id == i) then
        .ok (full, st.map fun r =>
          if r.id == i then
            { r with
              contentText := x.contentText
              provenance := x.provenance
              updatedAt := now }
          else r)
      else .ok (full, st ++ [full])
    else .error "ValidationError"

/-- A `memory_events` row. -/
structure MemoryEvent : Type where
  id : JStr
  subjectId : JStr
  subjectKind : JStr
  event : JStr
  data : JFields
  createdAt : JStr

/-- Creation inputs of a memory event
(`Omit<MemoryEvent, 'id' | 'createdAt'>`). -/
structure MemoryEventInput : Type where
  subjectId : JStr
  subjectKind : JStr
  event : JStr
  data : JFields

/-- The creation-input object hashed by `deterministicId`. -/
def MemoryEventInput.toJVal (x : MemoryEventInput) : JVal :=
  jsObj
    [(u "subjectId", .jstr x.subjectId),
     (u "subjectKind", .jstr x.subjectKind),
     (u "event", .jstr x.event),
     (u "data", .jobj x.data)]

/-- `MemoryEventSchema.parse` as a boolean check. -/
def validMemoryEvent (x : MemoryEvent) : Bool :=
  isValidId x.id && isDatetime x.createdAt

/-- `Repository.recordMemoryEvent`: `INSERT OR IGNORE` on the primary
key, returning the stored row on a no-op. -/
def recordMemoryEvent (now : JStr) (st : List MemoryEvent) (x : MemoryEventInput) :
    Except String (MemoryEvent × List MemoryEvent) :=
  match deterministicId x.toJVal with
  | .error e => .error e
  | .ok i =>
    let full : MemoryEvent :=
      { id := i, subjectId := x.subjectId, subjectKind := x.subjectKind, event := x.event,
        data := x.data, createdAt := now }
    if validMemoryEvent full then
      match st.find? (fun r => r.id == i) with
      | some r => .ok (r, st)
      | none => .ok (full, st ++ [full])
    else .error "ValidationError"

/-! ### Insight promotion (src/utils, memory-promotion section:
`classifyInsight` and `promoteInsightsToWorkingMemory`) -/

/-- ASCII lowering of one UTF-16 unit.  The source lowers with
`String.prototype.toLowerCase` and then matches case-insensitive ASCII
keyword regexes; on the ASCII letters the two agree, and only ASCII
letters can influence the keyword matches below. -/
def asciiLower (c : Nat) : Nat := if 65 ≤ c ∧ c ≤ 90 then c + 32 else c

/-- A word code unit for the regex boundary `\b` (`[A-Za-z0-9_]`). -/
def isWordUnit (c : Nat) : Bool :=
  decide ((48 ≤ c ∧ c ≤ 57) ∨ (65 ≤ c ∧ c ≤ 90) ∨ (97 ≤ c ∧ c ≤ 122) ∨ c = 95)

/-- Does `word` occur in the remaining text with `\b` boundaries on both
sides?  `prev` records whether the unit before the current position is a
word unit (`false` at the start of the string). -/
def hasWordAux (word : JStr) : Bool → JStr → Bool
  | _, [] => false
  | prev, c :: rest =>
    (!prev && word.isPrefixOf (c :: rest) &&
      (match (c :: rest).drop word.length with
       | [] => true
       | d :: _ => !isWordUnit d)) ||
    hasWordAux word (isWordUnit c) rest

/-- Test of an alternation regex `/\b(w1|w2|...)\b/` against the lowered
text. -/
def matchAnyWord (words : List JStr) (s : JStr) : Bool :=
  words.any fun w => hasWordAux w false (s.map asciiLower)

/-- The decision keywords of `classifyInsight`. -/
def decisionWords : List JStr :=
  [u "should", u "must", u "prefer", u "avoid", u "never", u "always"]

/-- The invariant keywords of `classifyInsight` (the optional group
`requires?` expanded into its two alternatives, longer first as the
regex engine would try them). -/
def invariantWords : List JStr :=
  [u "requires", u "require", u "constraint", u "rule", u "law", u "guarantee"]

/-- `classifyInsight`: decision before invariant before summary, testing
both the pattern and the description. -/
def classifyInsight (ins : Insight) : WorkingMemoryType :=
  if matchAnyWord decisionWords ins.pattern || matchAnyWord decisionWords ins.description
  then .decision
  else if matchAnyWord invariantWords ins.pattern ||
      matchAnyWord invariantWords ins.description
  then .invariant
  else .summary

/-- The provenance object stored with a promoted insight. -/
def promotionProvenance (ins : Insight) : JFields :=
  JFields.ofList
    [(u "source", .jstr (u "insight")),
     (u "insightId", .jstr ins.id),
     (u "confidence", .jnum ins.confidence),
     (u "frequency", .jnum (mkRat ins.frequency 1)),
     (u "relatedBeads", jsArr (ins.relatedBeads.map .jstr))]

/-- The data object of the `promoted_to_working_memory` event. -/
def promotionEventData (ty : WorkingMemoryType) (ins : Insight) : JFields :=
  JFields.ofList
    [(u "type", .jstr ty.toJs),
     (u "confidence", .jnum ins.confidence),
     (u "frequency", .jnum (mkRat ins.frequency 1))]

/-- The state read and written by `applyCommand`: the tables it
touches, the guidance document (`none` models a missing `AGENTS.md`),
and a count of file writes performed. -/
structure ApplyWorld : Type where
  dbExists : Bool
  insights : List Insight
  workingMemory : List WorkingMemory
  memoryEvents : List MemoryEvent
  knowledgeItems : List KnowledgeItem
  agentsMd : Option JStr
  writes : Nat

/-- Counters accumulated by `promoteInsightsToWorkingMemory`. -/
structure PromotionCounts : Type where
  summaries : Nat
  invariants : Nat
  decisions : Nat

/-- Bump the counter of one working-memory type. -/
def PromotionCounts.bump (c : PromotionCounts) : WorkingMemoryType → PromotionCounts
  | .summary => { c with summaries := c.summaries + 1 }
  | .invariant => { c with invariants := c.invariants + 1 }
  | .decision => { c with decisions := c.decisions + 1 }

/-- `listInsights` with a `minConfidence` filter: `WHERE confidence >= ?
ORDER BY confidence DESC, frequency DESC` (ties in scan order). -/
def listInsightsMin (minConfidence : Rat) (st : List Insight) : List Insight :=
  listInsights (st.filter fun r => decide (minConfidence ≤ r.confidence))

/-- The promotion loop over the filtered insights: classify, upsert the
working-memory entry, record the event.  A thrown repository error
leaves the writes made so far in place, as the exception would. -/
def promoteLoop (now pid : JStr) :
    List Insight → ApplyWorld → PromotionCounts →
      (Except String PromotionCounts) × ApplyWorld
  | [], w, acc => (.ok acc, w)
  | ins :: rest, w, acc =>
    let ty := classifyInsight ins
    match upsertWorkingMemory now w.workingMemory
        { projectId := pid, type := ty,
          contentText := ins.pattern ++ u " - " ++ ins.description,
          provenance := promotionProvenance ins } with
    | .error e => (.error e, w)
    | .ok (_, wm2) =>
      let w2 := { w with workingMemory := wm2 }
      match recordMemoryEvent now w2.memoryEvents
          { subjectId := ins.id, subjectKind := u "insight",
            event := u "promoted_to_working_memory",
            data := promotionEventData ty ins } with
      | .error e => (.error e, w2)
      | .ok (_, ev2) =>
        promoteLoop now pid rest { w2 with memoryEvents := ev2 } (acc.bump ty)

/-- `promoteInsightsToWorkingMemory(repo, 0.8, '.')` as invoked by
`applyCommand`: list the insights at confidence at least 0.8 and run the
promotion loop.  The first component carries `promoted` (the number of
listed insights) and the per-type counters. -/
def promoteInsightsToWorkingMemory (now : JStr) (w : ApplyWorld) :
    (Except String (Nat × PromotionCounts)) × ApplyWorld :=
  let insights := listInsightsMin (mkRat 4 5) w.insights
  match promoteLoop now (u ".") insights w ⟨0, 0, 0⟩ with
  | (.error e, w2) => (.error e, w2)
  | (.ok c, w2) => (.ok (insights.length, c), w2)

/-! ### Rendering to AGENTS.md (src/cli/commands/apply.ts) -/

/-- Comparison of two stored TEXT cells: SQLite BINARY collation
compares the UTF-8 bytes. -/
def sqlTextLt (a b : JStr) : Bool := unitsLt (utf8Encode a) (utf8Encode b)

/-- `listKnowledgeItems` with a `minConfidence` filter:
`WHERE confidence >= ? ORDER BY updated_at DESC` (ties in scan
order). -/
def listKnowledgeItemsMin (minConfidence : Rat) (st : List KnowledgeItem) :
    List KnowledgeItem :=
  sortByLt (fun q p => sqlTextLt p.updatedAt q.updatedAt)
    (st.filter fun r => decide (minConfidence ≤ r.confidence))

/-- `listWorkingMemory` with a `projectId` filter: `WHERE project_id = ?
ORDER BY updated_at DESC` (ties in scan order). -/
def listWorkingMemoryFor (pid : JStr) (st : List WorkingMemory) : List WorkingMemory :=
  sortByLt (fun q p => sqlTextLt p.updatedAt q.updatedAt)
    (st.filter fun r => r.projectId == pid)

/-- The knowledge comparator of `applyCommand` (`(b.helpful - a.helpful)
|| b.confidence - a.confidence || a.text.localeCompare(b.text)`), as the
strict precedence it induces; `cmp` abstracts the locale-dependent
`localeCompare`. -/
def kiLt (cmp : JStr → JStr → Int) (q p : KnowledgeItem) : Bool :=
  if q.helpful ≠ p.helpful then decide (p.helpful < q.helpful)
  else if q.confidence == p.confidence then decide (cmp q.text p.text < 0)
  else Rat.blt p.confidence q.confidence

/-- The `.sort(...)` call of `applyCommand` (the JavaScript sort is
stable). -/
def kiSort (cmp : JStr → JStr → Int) (l : List KnowledgeItem) : List KnowledgeItem :=
  sortByLt (kiLt cmp) l

/-- `Array.prototype.join` with a separator. -/
def joinWith (sep : JStr) : List JStr → JStr
  | [] => []
  | [x] => x
  | x :: xs => x ++ sep ++ joinWith sep xs

/-- One line of `renderKnowledgeSection`: short id tag, optional
feedback badge, text. -/
def knowledgeLine (it : KnowledgeItem) : JStr :=
  let helpful := if decide (0 < it.helpful) then 43 :: intStr it.helpful else []
  let harmful := if decide (0 < it.harmful) then 45 :: intStr it.harmful else []
  let badge := joinWith (u " ") ([helpful, harmful].filter fun s => !s.isEmpty)
  let feedback := if badge.isEmpty then [] else u " [" ++ badge ++ u "]"
  u "[#" ++ it.id.take 8 ++ u "]" ++ feedback ++ u " " ++ it.text

/-- `renderKnowledgeSection`: the matching items, one line each, joined
by blank lines; empty when no item matches. -/
def renderKnowledgeSection (items : List KnowledgeItem) (ty : KnowledgeType) : JStr :=
  let filtered := items.filter fun it => it.type == ty
  if filtered.isEmpty then [] else joinWith (u "\n\n") (filtered.map knowledgeLine)

/-- `renderWorkingMemorySection`. -/
def renderWorkingMemorySection (items : List WorkingMemory) (ty : WorkingMemoryType) :
    JStr :=
  let filtered := items.filter fun it => it.type == ty
  if filtered.isEmpty then []
  else
    joinWith (u "\n\n")
      (filtered.map fun it => u "[#" ++ it.id.take 8 ++ u "] " ++ it.contentText)

/-- The begin marker of the learned region. -/
def beginMarker : JStr := u "<!-- BEGIN: LEARNED_PATTERNS -->"

/-- The end marker of the learned region. -/
def endMarker : JStr := u "<!-- END: LEARNED_PATTERNS -->"

/-- Scan for the needle from offset `k` (`String.prototype.indexOf`). -/
def indexOfAux (needle : JStr) : JStr → Nat → Option Nat
  | [], k => if needle.isEmpty then some k else none
  | c :: rest, k =>
    if needle.isPrefixOf (c :: rest) then some k else indexOfAux needle rest (k + 1)

/-- `String.prototype.indexOf`, with `none` for the source's `-1`. -/
def strIndexOf (hay needle : JStr) : Option Nat := indexOfAux needle hay 0

/-- The marker guard of `applyCommand` (`startIdx === -1 ||
endIdx === -1 || endIdx <= startIdx`). -/
def markersBad (content : JStr) : Bool :=
  match strIndexOf content beginMarker, strIndexOf content endMarker with
  | some s, some e => decide (e ≤ s)
  | _, _ => true

/-- The fixed header lines of the learned section. -/
def learnedHeader : List JStr :=
  [beginMarker, u "## Learned Patterns", u "",
   u "*Auto-maintained by learning loop. Patterns accumulate from execution feedback.*",
   u ""]

/-- One conditional sub-section (`push(title, '', body, '')` when the
body is non-empty). -/
def sectionLines (title : JStr) (body : JStr) : List JStr :=
  if body.isEmpty then [] else [title, u "", body, u ""]

/-- The `learnedSection` line array assembled by `applyCommand`. -/
def learnedLines (allKnowledge : List KnowledgeItem) (wm : List WorkingMemory) :
    List JStr :=
  let patternSection := renderKnowledgeSection allKnowledge .pattern
  let factSection := renderKnowledgeSection allKnowledge .fact
  let procedureSection := renderKnowledgeSection allKnowledge .procedure
  let decisionSection := renderKnowledgeSection allKnowledge .decision
  let summarySection := renderWorkingMemorySection wm .summary
  let invariantSection := renderWorkingMemorySection wm .invariant
  let wmDecisionSection := renderWorkingMemorySection wm .decision
  learnedHeader ++
    sectionLines (u "### Patterns") patternSection ++
    sectionLines (u "### Facts") factSection ++
    sectionLines (u "### Procedures") procedureSection ++
    sectionLines (u "### Decisions") decisionSection ++
    (if !summarySection.isEmpty || !invariantSection.isEmpty ||
        !wmDecisionSection.isEmpty
     then [u "## Working Memory", u ""] else []) ++
    sectionLines (u "### Summaries") summarySection ++
    sectionLines (u "### Invariants") invariantSection ++
    sectionLines (u "### Key Decisions") wmDecisionSection ++
    [u "---", u ""]

/-- `learnedSection.join('\n') + '\n'`: the region that replaces
`content.slice(startIdx, endIdx)`.  The end marker itself survives in
the `after` slice. -/
def renderRegion (allKnowledge : List KnowledgeItem) (wm : List WorkingMemory) : JStr :=
  joinWith [10] (learnedLines allKnowledge wm) ++ [10]

/-- The `ApplyResult` record returned by `applyCommand`. -/
structure ApplyResult : Type where
  rendered : Bool
  knowledgeCount : Nat
  workingMemoryCount : Nat
  patternCount : Nat
  factCount : Nat
  procedureCount : Nat
  decisionCount : Nat
  wmSummaryCount : Nat
  wmInvariantCount : Nat
  wmDecisionCount : Nat

/-- The world after the promotion step of `applyCommand` (the state
component of the promotion, whether or not it succeeded). -/
def promotedWorld (now : JStr) (w : ApplyWorld) : ApplyWorld :=
  (promoteInsightsToWorkingMemory now w).2

/-- The knowledge view rendered by `applyCommand` over a world. -/
def applyKnowledgeView (cmp : JStr → JStr → Int) (w : ApplyWorld) : List KnowledgeItem :=
  kiSort cmp (listKnowledgeItemsMin (mkRat 1 2) w.knowledgeItems)

/-- The working-memory view rendered by `applyCommand` over a world. -/
def applyWmView (w : ApplyWorld) : List WorkingMemory :=
  listWorkingMemoryFor (u ".") w.workingMemory

/-- The region `applyCommand` writes between the markers of a world that
has already performed its promotion step. -/
def applyRegionOf (cmp : JStr → JStr → Int) (w : ApplyWorld) : JStr :=
  renderRegion (applyKnowledgeView cmp w) (applyWmView w)

/-- The whole document `applyCommand` produces from a marker-delimited
document: the prefix before the begin marker, the fresh region, and the
suffix from the end marker on. -/
def newContentOf (cmp : JStr → JStr → Int) (now : JStr) (w : ApplyWorld)
    (content : JStr) (s e : Nat) : JStr :=
  content.take s ++ applyRegionOf cmp (promotedWorld now w) ++ content.drop e

/-- `applyCommand` (src/cli/commands/apply.ts): database check, insight
promotion, view reads, document and marker checks, splice between the
markers, and a write only when the content changed.  `cmp` abstracts
`String.prototype.localeCompare`; `now` the clock. -/
def applyCommand (cmp : JStr → JStr → Int) (now : JStr) (w : ApplyWorld) :
    (Except String ApplyResult) × ApplyWorld :=
  if !w.dbExists then (.error "Database not initialized (run: en init)", w)
  else
    match promoteInsightsToWorkingMemory now w with
    | (.error e, w1) => (.error e, w1)
    | (.ok _, w1) =>
      let allKnowledge := applyKnowledgeView cmp w1
      let wm := applyWmView w1
      match w1.agentsMd with
      | none => (.error "AGENTS.md not found (run: af init)", w1)
      | some content =>
        match strIndexOf content beginMarker, strIndexOf content endMarker with
        | some s, some e =>
          if e ≤ s then
            (.error "AGENTS.md missing required HTML comment markers", w1)
          else
            let newContent :=
              content.take s ++ renderRegion allKnowledge wm ++ content.drop e
            let contentChanged := !(newContent == content)
            (.ok
              { rendered := contentChanged,
                knowledgeCount := allKnowledge.length,
                workingMemoryCount := wm.length,
                patternCount :=
                  (allKnowledge.filter fun k => k.type == KnowledgeType.pattern).length,
                factCount :=
                  (allKnowledge.filter fun k => k.type == KnowledgeType.fact).length,
                procedureCount :=
                  (allKnowledge.filter fun k => k.type == KnowledgeType.procedure).length,
                decisionCount :=
                  (allKnowledge.filter fun k => k.type == KnowledgeType.decision).length,
                wmSummaryCount :=
                  (wm.filter fun m => m.type == WorkingMemoryType.summary).length,
                wmInvariantCount :=
                  (wm.filter fun m => m.type == WorkingMemoryType.invariant).length,
                wmDecisionCount :=
                  (wm.filter fun m => m.type == WorkingMemoryType.decision).length },
             if contentChanged then
               { w1 with agentsMd := some newContent, writes := w1.writes + 1 }
             else w1)
        | _, _ => (.error "AGENTS.md missing required HTML comment markers", w1)

/-- Trivial comparator standing in for `localeCompare` in concrete
runs. -/
def cmp0 : JStr → JStr → Int := fun _ _ => 0

/-- Concrete insight eligible for promotion (confidence 1, threshold
0.8); its pattern and description carry no classification keyword, so
it promotes as a summary. -/
def c1Ins : Insight :=
  { id := u "i1", pattern := u "p", description := u "d", confidence := 1,
    frequency := 1, relatedBeads := [], metaTags := [], createdAt := wNow }

/-- A guidance document with no markers at all. -/
def c1Doc : JStr := u "# Agents"

/-- World with one promotable insight and a marker-less document. -/
def c1World : ApplyWorld :=
  { dbExists := true, insights := [c1Ins], workingMemory := [], memoryEvents := [],
    knowledgeItems := [], agentsMd := some c1Doc, writes := 0 }

/-- A well-formed guidance document: prefix of 8 units, begin marker at
offset 8, end marker at offset 45, a trailing suffix. -/
def c8Doc : JStr :=
  u "# Title\n" ++ beginMarker ++ u "\nold\n" ++ endMarker ++ u "\ntail"

/-- World with empty tables and the well-formed document. -/
def c8World : ApplyWorld :=
  { dbExists := true, insights := [], workingMemory := [], memoryEvents := [],
    knowledgeItems := [], agentsMd := some c8Doc, writes := 0 }

/-! ### bBoN tasks, runs and attempt steps (schema section appended to
src/store/migrations/0003_memory_tiers.sql; src/unnamed/part_015,
`Repository.addTask` / `Repository.addBbonRun` /
`Repository.addAttemptStep`) -/

/-- A `tasks` row. -/
structure Task : Type where
  id : JStr
  beadId : Option JStr
  spec : JFields
  createdAt : JStr

/-- Creation inputs of a task (`Omit<Task, 'id' | 'createdAt'>`). -/
structure TaskInput : Type where
  beadId : Option JStr
  spec : JFields

/-- The creation-input object hashed by `deterministicId` (an absent
`beadId` canonicalizes as omitted). -/
def TaskInput.toJVal (x : TaskInput) : JVal :=
  jsObj
    [(u "beadId", match x.beadId with | some b => .jstr b | none => .jundef),
     (u "spec", .jobj x.spec)]

/-- `TaskSchema.parse` as a boolean check. -/
def validTask (x : Task) : Bool := isValidId x.id && isDatetime x.createdAt

/-- `Repository.addTask`. -/
def addTask (now : JStr) (st : List Task) (x : TaskInput) :
    Except String (Task × List Task) :=
  match deterministicId x.toJVal with
  | .error e => .error e
  | .ok i =>
    let full : Task := { id := i, beadId := x.beadId, spec := x.spec, createdAt := now }
    if validTask full then
      match st.find? (fun r => r.id == i) with
      | some r => .ok (r, st)
      | none => .ok (full, st ++ [full])
    else .error "ValidationError"

/-- A `bbon_runs` row. -/
structure BbonRun : Type where
  id : JStr
  taskId : JStr
  n : Int
  seed : Int
  config : JFields
  createdAt : JStr

/-- Creation inputs of a run (`Omit<BbonRun, 'id' | 'createdAt'>`). -/
structure BbonRunInput : Type where
  taskId : JStr
  n : Int
  seed : Int
  config : JFields

/-- The creation-input object hashed by `deterministicId`. -/
def BbonRunInput.toJVal (x : BbonRunInput) : JVal :=
  jsObj
    [(u "taskId", .jstr x.taskId),
     (u "n", .jnum (mkRat x.n 1)),
     (u "seed", .jnum (mkRat x.seed 1)),
     (u "config", .jobj x.config)]

/-- `BbonRunSchema.parse` as a boolean check (`n` is a positive
integer). -/
def validBbonRun (x : BbonRun) : Bool :=
  isValidId x.id && decide (1 ≤ x.n) && isDatetime x.createdAt

/-- `Repository.addBbonRun`. -/
def addBbonRun (now : JStr) (st : List BbonRun) (x : BbonRunInput) :
    Except String (BbonRun × List BbonRun) :=
  match deterministicId x.toJVal with
  | .error e => .error e
  | .ok i =>
    let full : BbonRun :=
      { id := i, taskId := x.taskId, n := x.n, seed := x.seed, config := x.config,
        createdAt := now }
    if validBbonRun full then
      match st.find? (fun r => r.id == i) with
      | some r => .ok (r, st)
      | none => .ok (full, st ++ [full])
    else .error "ValidationError"

/-- An `attempt_steps` row. -/
structure AttemptStep : Type where
  id : JStr
  attemptId : JStr
  stepIndex : Int
  kind : JStr
  input : JFields
  output : JFields
  observation : JFields
  createdAt : JStr

/-- Creation inputs of a step (`Omit<AttemptStep, 'id' | 'createdAt'>`). -/
structure AttemptStepInput : Type where
  attemptId : JStr
  stepIndex : Int
  kind : JStr
  input : JFields
  output : JFields
  observation : JFields

/-- The creation-input object hashed by `deterministicId`. -/
def AttemptStepInput.toJVal (x : AttemptStepInput) : JVal :=
  jsObj
    [(u "attemptId", .jstr x.attemptId),
     (u "stepIndex", .jnum (mkRat x.stepIndex 1)),
     (u "kind", .jstr x.kind),
     (u "input", .jobj x.input),
     (u "output", .jobj x.output),
     (u "observation", .jobj x.observation)]

/-- `AttemptStepSchema.parse` as a boolean check. -/
def validAttemptStep (x : AttemptStep) : Bool :=
  isValidId x.id && decide (0 ≤ x.stepIndex) && isDatetime x.createdAt

/-- `Repository.addAttemptStep`: `INSERT OR IGNORE` on the primary key,
returning the stored row on a no-op. -/
def addAttemptStep (now : JStr) (st : List AttemptStep) (x : AttemptStepInput) :
    Except String (AttemptStep × List AttemptStep) :=
  match deterministicId x.toJVal with
  | .error e => .error e
  | .ok i =>
    let full : AttemptStep :=
      { id := i, attemptId := x.attemptId, stepIndex := x.stepIndex, kind := x.kind,
        input := x.input, output := x.output, observation := x.observation,
        createdAt := now }
    if validAttemptStep full then
      match st.find? (fun r => r.id == i) with
      | some r => .ok (r, st)
      | none => .ok (full, st ++ [full])
    else .error "ValidationError"

/-! ### bbonRunCommand (src/cli/commands/bbon/run.ts) -/

/-- The zod-parsed task specification consumed by the run command. -/
structure TaskSpec : Type where
  goal : JStr
  beadId : Option JStr
  constraints : Option (List JStr)
  context : Option JFields

/-- The parsed specification as the record stored and hashed (the
`z.object` output carries its present fields in schema order). -/
def TaskSpec.toFields (ts : TaskSpec) : JFields :=
  JFields.ofList
    ([(u "goal", .jstr ts.goal)] ++
      (match ts.beadId with | some b => [(u "beadId", .jstr b)] | none => []) ++
      (match ts.constraints with
       | some cs => [(u "constraints", jsArr (cs.map .jstr))]
       | none => []) ++
      (match ts.context with | some c => [(u "context", .jobj c)] | none => []))

/-- The database state touched by `bbonRunCommand`, plus an
instrumentation log of the step inputs passed to successful
`addAttemptStep` calls — `(attemptId, stepIndex, kind)` per call, in
call order.  The log is observation only; no source behaviour reads
it. -/
structure BbonWorld : Type where
  tasks : List Task
  bbonRuns : List BbonRun
  attempts : List Attempt
  attemptSteps : List AttemptStep
  stepLog : List (JStr × Int × JStr)

/-- The catch block of one attempt: log an `error`-kind step whose
index is 1 exactly when the learn result was already computed
(`learnResult ? 1 : 0`), and report the failed status together with the
stored result (`learnResult ? learnResult :` the empty object). -/
def bbonCatch (now : JStr) (attemptId : JStr) (learnResult : Option JFields)
    (msg : String) (w : BbonWorld) :
    (Except String (AttemptStatus × JFields)) × BbonWorld :=
  match addAttemptStep now w.attemptSteps
      { attemptId := attemptId,
        stepIndex := (match learnResult with | some _ => (1 : Int) | none => 0),
        kind := u "error", input := .nil, output := .nil,
        observation := JFields.ofList [(u "error", .jstr (u msg))] } with
  | .error e => (.error e, w)
  | .ok (_, st2) =>
    (.ok (.failed, match learnResult with | some r => r | none => .nil),
     { w with
       attemptSteps := st2
       stepLog := w.stepLog ++
         [(attemptId, (match learnResult with | some _ => (1 : Int) | none => 0),
           u "error")] })

/-- The try block of one attempt: log the reflect step, run the learn
cycle (`learn` abstracts `learnCommand`, its error message landing in
the caught path), log `learn_complete`; any failure lands in
`bbonCatch`.  Returns the final status and the result to store. -/
def bbonTryBlock (now : JStr) (spec : TaskSpec) (aid : JStr)
    (learn : Nat → Except String JFields) (i : Nat) (w : BbonWorld) :
    (Except String (AttemptStatus × JFields)) × BbonWorld :=
  match addAttemptStep now w.attemptSteps
      { attemptId := aid, stepIndex := 0, kind := u "reflect",
        input := JFields.ofList [(u "task", .jobj spec.toFields)],
        output := .nil, observation := .nil } with
  | .error e0 => bbonCatch now aid none e0 w
  | .ok (_, st2) =>
    match learn i with
    | .error emsg =>
      bbonCatch now aid none emsg
        { w with
          attemptSteps := st2
          stepLog := w.stepLog ++ [(aid, 0, u "reflect")] }
    | .ok lr =>
      match addAttemptStep now st2
          { attemptId := aid, stepIndex := 1, kind := u "learn_complete",
            input := .nil, output := lr, observation := .nil } with
      | .error e1 =>
        bbonCatch now aid (some lr) e1
          { w with
            attemptSteps := st2
            stepLog := w.stepLog ++ [(aid, 0, u "reflect")] }
      | .ok (_, st3) =>
        (.ok (.completed, lr),
         { w with
           attemptSteps := st3
           stepLog := (w.stepLog ++ [(aid, 0, u "reflect")]) ++
             [(aid, 1, u "learn_complete")] })

/-- One iteration of the attempt loop of `bbonRunCommand` at ordinal
`i`: create the pending attempt, mark it running, run the try block,
and stamp the final status, result and `completedAt`.  A repository
error outside the try block propagates, leaving the writes made so far
in place. -/
def bbonAttemptIteration (now : JStr) (spec : TaskSpec) (runId : JStr)
    (learn : Nat → Except String JFields) (i : Nat) (w : BbonWorld) :
    (Except String Unit) × BbonWorld :=
  match addAttempt now w.attempts
      { runId := runId, ordinal := (i : Int), status := .pending, result := .nil,
        completedAt := none } with
  | .error e => (.error e, w)
  | .ok (attempt, at2) =>
    match bbonTryBlock now spec attempt.id learn i
        { w with attempts := (updateAttempt at2 attempt.id
            { status := some .running, result := none, completedAt := none }) } with
    | (.error e, w4) => (.error e, w4)
    | (.ok (finalStatus, result), w4) =>
      (.ok (),
       { w4 with attempts := (updateAttempt w4.attempts attempt.id
           { status := some finalStatus, result := some result,
             completedAt := some now }) })

/-- The attempt loop over the ordinals. -/
def bbonLoop (now : JStr) (spec : TaskSpec) (runId : JStr)
    (learn : Nat → Except String JFields) :
    List Nat → BbonWorld → (Except String Unit) × BbonWorld
  | [], w => (.ok (), w)
  | i :: rest, w =>
    match bbonAttemptIteration now spec runId learn i w with
    | (.error e, w2) => (.error e, w2)
    | (.ok _, w2) => bbonLoop now spec runId learn rest w2

/-- Database effects of `bbonRunCommand` after CLI parsing: the `--n`
guard, task creation, run creation, and the attempt loop over ordinals
`0..n-1`.  On success the run id is returned. -/
def bbonRunCommand (now : JStr) (spec : TaskSpec) (n : Int) (seed : Int)
    (config : JFields) (learn : Nat → Except String JFields) (w : BbonWorld) :
    (Except String JStr) × BbonWorld :=
  if n < 1 then (.error "--n must be a positive integer", w)
  else
    match addTask now w.tasks { beadId := spec.beadId, spec := spec.toFields } with
    | .error e => (.error e, w)
    | .ok (task, ts2) =>
      let w1 : BbonWorld := { w with tasks := ts2 }
      match addBbonRun now w1.bbonRuns
          { taskId := task.id, n := n, seed := seed, config := config } with
      | .error e => (.error e, w1)
      | .ok (run, rs2) =>
        let w2 : BbonWorld := { w1 with bbonRuns := rs2 }
        match bbonLoop now spec run.id learn (List.range n.toNat) w2 with
        | (.error e, w3) => (.error e, w3)
        | (.ok _, w3) => (.ok run.id, w3)

/-- All strings of the list equal its head. -/
def allEqB : List JStr → Bool
  | [] => true
  | x :: xs => xs.all (fun y => y == x)

/-- Concrete minimal task specification for the bbon runs. -/
def c9Spec : TaskSpec :=
  { goal := u "g", beadId := none, constraints := none, context := none }

/-- A learn cycle that always throws. -/
def c9LearnFail : Nat → Except String JFields := fun _ => .error "boom"

/-- A learn cycle that always returns the empty result object. -/
def c10Learn : Nat → Except String JFields := fun _ => .ok .nil

/-- The empty bbon world. -/
def bbonWorld0 : BbonWorld :=
  { tasks := [], bbonRuns := [], attempts := [], attemptSteps := [], stepLog := [] }

theorem unitsLt_irrefl : ∀ a : List Nat, unitsLt a a = false := by
  intro a
  induction a with
  | nil => rfl
  | cons x xs ih => simp [unitsLt, ih]

theorem unitsLt_trans :
    ∀ a b c : List Nat, unitsLt a b = true → unitsLt b c = true → unitsLt a c = true := by
  intro a
  induction a with
  | nil =>
    intro b c hab hbc
    cases b with
    | nil => simp [unitsLt] at hab
    | cons y ys =>
      cases c with
      | nil => simp [unitsLt] at hbc
      | cons z zs => simp [unitsLt]
  | cons x xs ih =>
    intro b c hab hbc
    cases b with
    | nil => simp [unitsLt] at hab
    | cons y ys =>
      cases c with
      | nil => simp [unitsLt] at hbc
      | cons z zs =>
        simp only [unitsLt] at hab hbc ⊢
        rcases Nat.lt_trichotomy x y with hxy | hxy | hxy
        · rcases Nat.lt_trichotomy y z with hyz | hyz | hyz
          · simp [Nat.lt_trans hxy hyz]
          · subst hyz
            simp [hxy]
          · simp [hyz, Nat.lt_asymm hyz] at hbc
        · subst hxy
          rcases Nat.lt_trichotomy x z with hyz | hyz | hyz
          · simp [hyz]
          · subst hyz
            rw [if_neg (Nat.lt_irrefl x), if_neg (Nat.lt_irrefl x)] at hab hbc ⊢
            exact ih ys zs hab hbc
          · simp [hyz, Nat.lt_asymm hyz] at hbc
        · simp [hxy, Nat.lt_asymm hxy] at hab

theorem unitsLt_antisymm :
    ∀ a b : List Nat, unitsLt a b = false → unitsLt b a = false → a = b := by
  intro a
  induction a with
  | nil =>
    intro b hab _
    cases b with
    | nil => rfl
    | cons y ys => simp [unitsLt] at hab
  | cons x xs ih =>
    intro b hab hba
    cases b with
    | nil => simp [unitsLt] at hba
    | cons y ys =>
      simp only [unitsLt] at hab hba
      rcases Nat.lt_trichotomy x y with hxy | hxy | hxy
      · simp [hxy] at hab
      · subst hxy
        rw [if_neg (Nat.lt_irrefl x), if_neg (Nat.lt_irrefl x)] at hab hba
        rw [ih ys hab hba]
      · simp [hxy, Nat.lt_asymm hxy] at hba

theorem cuLe_trans : ∀ a b c : JStr, CuLe a b → CuLe b c → CuLe a c := by
  intro a b c hab hbc
  simp only [CuLe, unitsLe, Bool.not_eq_true'] at hab hbc ⊢
  cases hca : unitsLt c a with
  | false => rfl
  | true =>
    exfalso
    cases hbc2 : unitsLt b c with
    | false =>
      have : b = c := unitsLt_antisymm b c hbc2 hbc
      subst this
      rw [hca] at hab
      simp at hab
    | true =>
      have : unitsLt b a = true := unitsLt_trans b c a hbc2 hca
      rw [this] at hab
      simp at hab

theorem cuLe_of_lt {a b : JStr} (h : unitsLt a b = true) : CuLe a b := by
  simp only [CuLe, unitsLe, Bool.not_eq_true']
  cases hv : unitsLt b a with
  | false => rfl
  | true =>
    have := unitsLt_trans a b a h hv
    rw [unitsLt_irrefl] at this
    exact absurd this (by simp)

theorem cuLe_of_not_lt {a b : JStr} (h : unitsLt b a = false) : CuLe a b := by
  simp only [CuLe, unitsLe, h, Bool.not_false]

/-- Membership is preserved by `insertPair`. -/
theorem mem_insertPair {p x : JStr × JStr} :
    ∀ l : List (JStr × JStr), x ∈ insertPair p l ↔ x = p ∨ x ∈ l := by
  intro l
  induction l with
  | nil => simp [insertPair]
  | cons q qs ih =>
    simp only [insertPair]
    split
    · simp only [List.mem_cons, ih]
      tauto
    · simp only [List.mem_cons]

theorem pairwise_insertPair {p : JStr × JStr} :
    ∀ l : List (JStr × JStr), l.Pairwise FieldLe → (insertPair p l).Pairwise FieldLe := by
  intro l
  induction l with
  | nil => simp [insertPair]
  | cons q qs ih =>
    intro hp
    rcases List.pairwise_cons.mp hp with ⟨hq, hqs⟩
    simp only [insertPair]
    split
    · rename_i hlt
      refine List.pairwise_cons.mpr ⟨?_, ih hqs⟩
      intro x hx
      rcases (mem_insertPair qs).mp hx with rfl | hmem
      · exact cuLe_of_lt hlt
      · exact hq x hmem
    · rename_i hnlt
      have hqp : unitsLt q.1 p.1 = false := by
        cases hv : unitsLt q.1 p.1 with
        | false => rfl
        | true => exact absurd hv hnlt
      refine List.pairwise_cons.mpr ⟨?_, hp⟩
      intro x hx
      rcases List.mem_cons.mp hx with hxq | hmem
      · subst hxq
        exact cuLe_of_not_lt hqp
      · exact cuLe_trans _ _ _ (cuLe_of_not_lt hqp) (hq x hmem)

theorem pairwise_sortPairs : ∀ l : List (JStr × JStr), (sortPairs l).Pairwise FieldLe := by
  intro l
  induction l with
  | nil => simp [sortPairs]
  | cons p ps ih => exact pairwise_insertPair _ ih

theorem mem_sortPairs {x : JStr × JStr} :
    ∀ l : List (JStr × JStr), x ∈ sortPairs l ↔ x ∈ l := by
  intro l
  induction l with
  | nil => simp [sortPairs]
  | cons p ps ih =>
    simp only [sortPairs]
    rw [mem_insertPair, ih]
    simp

theorem pairwise_cuSortedB : ∀ l : List JStr, l.Pairwise CuLe → cuSortedB l = true := by
  intro l
  induction l with
  | nil => intro _; rfl
  | cons a r ih =>
    intro hp
    cases r with
    | nil => rfl
    | cons b r2 =>
      rcases List.pairwise_cons.mp hp with ⟨hab, hrest⟩
      simp only [cuSortedB, Bool.and_eq_true]
      exact ⟨hab b (by simp), ih hrest⟩

theorem codePoints_noSurr : ∀ s : JStr, noSurr s = true → codePoints s = s
  | [], _ => rfl
  | [_], _ => rfl
  | c1 :: c2 :: rest, h => by
    have h2 := h
    rw [noSurr, List.all_cons, Bool.and_eq_true] at h2
    obtain ⟨h1, htail⟩ := h2
    have hcond : (isHigh c1 && isLow c2) = false := by
      cases hv : isHigh c1 with
      | false => rfl
      | true =>
        rw [Bool.not_eq_true'] at h1
        rw [isSurr, hv] at h1
        simp at h1
    rw [codePoints, hcond]
    simp only [Bool.false_eq_true, if_false]
    rw [codePoints_noSurr (c2 :: rest) htail]

theorem cuSortedB_eq_cpSortedB :
    ∀ l : List JStr, (∀ k ∈ l, noSurr k = true) → cpSortedB l = cuSortedB l := by
  intro l
  induction l with
  | nil => intro _; rfl
  | cons a r ih =>
    intro hall
    cases r with
    | nil => rfl
    | cons b r2 =>
      simp only [cpSortedB, cuSortedB]
      rw [codePoints_noSurr a (hall a (by simp)), codePoints_noSurr b (hall b (by simp))]
      rw [ih (fun k hk => hall k (List.mem_cons_of_mem a hk))]

/-- Keys of rendered fields are keys of defined source fields. -/
theorem canonFieldsList_key_sound :
    ∀ (fs : JFields) (ps : List (JStr × JStr)), canonFieldsList fs = .ok ps →
      ∀ k e, (k, e) ∈ ps → ∃ v, (k, v) ∈ fs.toList ∧ v.isUndef = false
  | .nil, ps, hps, k, e, hke => by
    cases hps
    simp at hke
  | .cons k0 v0 rest, ps, hps, k, e, hke => by
    rw [canonFieldsList] at hps
    by_cases hu : v0.isUndef
    · rw [if_pos hu] at hps
      rcases canonFieldsList_key_sound rest ps hps k e hke with ⟨v, hv, hvu⟩
      exact ⟨v, by simp [JFields.toList, hv], hvu⟩
    · rw [if_neg hu] at hps
      cases hcv : canonV v0 with
      | error msg => rw [hcv] at hps; exact Except.noConfusion hps
      | ok e0 =>
        rw [hcv] at hps
        cases hcr : canonFieldsList rest with
        | error msg => rw [hcr] at hps; exact Except.noConfusion hps
        | ok es =>
          rw [hcr] at hps
          injection hps with hps
          subst hps
          rcases List.mem_cons.mp hke with hhead | htail
          · simp only [Prod.mk.injEq] at hhead
            obtain ⟨rfl, rfl⟩ := hhead
            exact ⟨v0, by simp [JFields.toList], by simpa using hu⟩
          · rcases canonFieldsList_key_sound rest es hcr k e htail with ⟨v, hv, hvu⟩
            exact ⟨v, by simp [JFields.toList, hv], hvu⟩

/-- Every defined source field contributes a rendered field. -/
theorem canonFieldsList_key_complete :
    ∀ (fs : JFields) (ps : List (JStr × JStr)), canonFieldsList fs = .ok ps →
      ∀ k v, (k, v) ∈ fs.toList → v.isUndef = false → ∃ e, (k, e) ∈ ps
  | .nil, ps, _, k, v, hkv, _ => by
    simp [JFields.toList] at hkv
  | .cons k0 v0 rest, ps, hps, k, v, hkv, hvu => by
    rw [canonFieldsList] at hps
    rcases List.mem_cons.mp hkv with hhead | htail
    · simp only [Prod.mk.injEq] at hhead
      obtain ⟨rfl, rfl⟩ := hhead
      rw [if_neg (by simp [hvu])] at hps
      cases hcv : canonV v with
      | error msg => rw [hcv] at hps; exact Except.noConfusion hps
      | ok e0 =>
        rw [hcv] at hps
        cases hcr : canonFieldsList rest with
        | error msg => rw [hcr] at hps; exact Except.noConfusion hps
        | ok es =>
          rw [hcr] at hps
          injection hps with hps
          subst hps
          exact ⟨e0, by simp⟩
    · by_cases hu : v0.isUndef
      · rw [if_pos hu] at hps
        exact canonFieldsList_key_complete rest ps hps k v htail hvu
      · rw [if_neg hu] at hps
        cases hcv : canonV v0 with
        | error msg => rw [hcv] at hps; exact Except.noConfusion hps
        | ok e0 =>
          rw [hcv] at hps
          cases hcr : canonFieldsList rest with
          | error msg => rw [hcr] at hps; exact Except.noConfusion hps
          | ok es =>
            rw [hcr] at hps
            simp only [Except.bind] at hps
            cases hps
            rcases canonFieldsList_key_complete rest es hcr k v htail hvu with ⟨e2, he2⟩
            exact ⟨e2, by simp [he2]⟩

/-! ### Claim C6 -/

/-- C6, counterexample.  The claim says `canonicalize` orders keys
ascending by Unicode code point, including keys outside the basic
multilingual plane.  The source sorts with the default JavaScript sort,
which compares UTF-16 code units: the astral key U+10000 (surrogate pair
`[55296, 56320]`) sorts before the BMP key U+FFFF (`[65535]`) although
its code point 65536 is larger, so the rendered key order of a concrete
two-field object keyed by U+FFFF and U+10000 violates code-point
order. -/
theorem C6_counterexample :
    canonKeys (JFields.ofList [([65535], .jnum 1), ([55296, 56320], .jnum 2)]) =
      .ok [[55296, 56320], [65535]] ∧
    canonV (jsObj [([65535], .jnum 1), ([55296, 56320], .jnum 2)]) =
      .ok [123, 34, 55296, 56320, 34, 58, 50, 44, 34, 65535, 34, 58, 49, 125] ∧
    cpSortedB [[55296, 56320], [65535]] = false ∧
    codePoints [55296, 56320] = [65536] ∧
    codePoints [65535] = [65535] :=
  ⟨rfl, rfl, rfl, rfl, rfl⟩

/-- C6 (amended): for every plain mapping input that canonicalizes
successfully, the rendered keys are sorted ascending by UTF-16 code
unit — the order realized by the default JavaScript sort — and this
coincides with code-point order whenever no key contains a surrogate
code unit (in particular for all keys inside the basic multilingual
plane); a key is rendered exactly when its value is defined, so keys
whose value is absent (`undefined`) are omitted. -/
theorem C6_keys_sorted_code_unit (fs : JFields) (keys : List JStr)
    (h : canonKeys fs = .ok keys) :
    cuSortedB keys = true ∧
    (∀ k ∈ keys, ∃ v, (k, v) ∈ fs.toList ∧ v.isUndef = false) ∧
    (∀ k v, (k, v) ∈ fs.toList → v.isUndef = false → k ∈ keys) ∧
    ((∀ k ∈ keys, noSurr k = true) → cpSortedB keys = true) := by
  rw [canonKeys] at h
  cases hc : canonFieldsList fs with
  | error e =>
    rw [hc] at h
    exact Except.noConfusion h
  | ok ps =>
    rw [hc] at h
    injection h with h
    subst h
    have hcu : cuSortedB ((sortPairs ps).map Prod.fst) = true := by
      apply pairwise_cuSortedB
      exact List.Pairwise.map Prod.fst (fun a b hab => hab) (pairwise_sortPairs ps)
    refine ⟨hcu, ?_, ?_, ?_⟩
    · intro k hk
      rcases List.mem_map.mp hk with ⟨p, hp, rfl⟩
      exact canonFieldsList_key_sound fs ps hc p.1 p.2 ((mem_sortPairs ps).mp hp)
    · intro k v hkv hvu
      rcases canonFieldsList_key_complete fs ps hc k v hkv hvu with ⟨e, he⟩
      exact List.mem_map.mpr ⟨(k, e), (mem_sortPairs ps).mpr he, rfl⟩
    · intro hall
      rw [cuSortedB_eq_cpSortedB _ hall]
      exact hcu

/-- C6, witness: the amended theorem applied to the concrete mapping
`\x7b b: 1, a: "x", c: undefined \x7d`, whose rendered keys are
`["a", "b"]`. -/
theorem C6_witness :
    cuSortedB [u "a", u "b"] = true :=
  (C6_keys_sorted_code_unit
    (JFields.ofList [(u "b", .jnum 1), (u "a", .jstr (u "x")), (u "c", .jundef)])
    [u "a", u "b"] rfl).1

/-! ### Identifier shape -/

theorem isHexUnit_hexNibble (n : Nat) : isHexUnit (hexNibble n) = true := by
  have h16 : n % 16 < 16 := Nat.mod_lt _ (by omega)
  rw [hexNibble, isHexUnit]
  split
  · rename_i h
    simp only [decide_eq_true_eq]
    omega
  · rename_i h
    simp only [decide_eq_true_eq]
    omega

/-- Every SHA-256 hex digest is a valid 64-hex identifier. -/
theorem isValidId_sha256Hex (msg : List Nat) : isValidId (sha256Hex msg) = true := by
  rw [sha256Hex, isValidId]
  simp [hexWord, isHexUnit_hexNibble]

/-- A successfully derived deterministic id is a valid 64-hex id. -/
theorem isValidId_deterministicId (v : JVal) (i : JStr) (h : deterministicId v = .ok i) :
    isValidId i = true := by
  rw [deterministicId] at h
  cases hc : canonV v with
  | error e =>
    rw [hc] at h
    exact Except.noConfusion h
  | ok c =>
    rw [hc] at h
    injection h with h
    subst h
    exact isValidId_sha256Hex _

/-! ### List search helper -/

theorem find?_append_none {α : Type} {p : α → Bool} :
    ∀ l₁ l₂ : List α, l₁.find? p = none → (l₁ ++ l₂).find? p = l₂.find? p := by
  intro l₁
  induction l₁ with
  | nil => intro l₂ _; rfl
  | cons a l ih =>
    intro l₂ h
    rw [List.find?_cons] at h
    rw [List.cons_append, List.find?_cons]
    cases hp : p a with
    | false =>
      rw [hp] at h
      exact ih l₂ h
    | true =>
      rw [hp] at h
      exact Option.noConfusion h

/-! ### Claim C5 -/

/-- C5 (confirmed): for `addKnowledgeItem` and `addAttempt` — the two
`add` operations the claim names — calling `add(x)` twice returns the
same 64-hex id both times, leaves the table unchanged after the second
call (in particular the row count), and the second call returns the row
already stored, without updating it.  The clock strings are explicit
arguments; the second call's clock must be datetime-shaped for the zod
parse, and the difference in clocks does not reach the stored row. -/
theorem C5_add_idempotent :
    (∀ (now1 now2 : JStr) (st : List KnowledgeItem) (x : KnowledgeItemInput)
      (r1 : KnowledgeItem) (st1 : List KnowledgeItem),
      addKnowledgeItem now1 st x = .ok (r1, st1) → isDatetime now2 = true →
      addKnowledgeItem now2 st1 x = .ok (r1, st1) ∧ isValidId r1.id = true ∧ r1 ∈ st1) ∧
    (∀ (now1 now2 : JStr) (st : List Attempt) (x : AttemptInput)
      (r1 : Attempt) (st1 : List Attempt),
      addAttempt now1 st x = .ok (r1, st1) → isDatetime now2 = true →
      addAttempt now2 st1 x = .ok (r1, st1) ∧ isValidId r1.id = true ∧ r1 ∈ st1) := by
  constructor
  · intro now1 now2 st x r1 st1 h1 hdt
    rw [addKnowledgeItem] at h1
    cases hid : deterministicId x.toJVal with
    | error e =>
      rw [hid] at h1
      exact Except.noConfusion h1
    | ok i =>
      rw [hid] at h1
      simp only [] at h1
      split at h1
      case isFalse => exact Except.noConfusion h1
      case isTrue hv =>
        rw [addKnowledgeItem, hid]
        simp only []
        have hvalid : isValidId i = true := isValidId_deterministicId _ _ hid
        split at h1
        case h_1 r hfind =>
          injection h1 with h1
          simp only [Prod.mk.injEq] at h1
          obtain ⟨hr, hst⟩ := h1
          subst hr
          subst hst
          have hpr := List.find?_some hfind
          have hrid : r.id = i := eq_of_beq hpr
          rw [if_pos (by
            rw [validKnowledgeItem] at hv ⊢
            simp only [Bool.and_eq_true] at hv ⊢
            exact ⟨⟨hv.1.1, hdt⟩, hdt⟩), hfind]
          exact ⟨rfl, hrid ▸ hvalid, List.mem_of_find?_eq_some hfind⟩
        case h_2 hfind =>
          injection h1 with h1
          simp only [Prod.mk.injEq] at h1
          obtain ⟨hr, hst⟩ := h1
          subst hr
          subst hst
          rw [if_pos (by
            rw [validKnowledgeItem] at hv ⊢
            simp only [Bool.and_eq_true] at hv ⊢
            exact ⟨⟨hv.1.1, hdt⟩, hdt⟩)]
          rw [find?_append_none _ _ hfind]
          simp [List.find?_cons, hvalid]
  · intro now1 now2 st x r1 st1 h1 hdt
    rw [addAttempt] at h1
    cases hid : deterministicId x.toJVal with
    | error e =>
      rw [hid] at h1
      exact Except.noConfusion h1
    | ok i =>
      rw [hid] at h1
      simp only [] at h1
      split at h1
      case isFalse => exact Except.noConfusion h1
      case isTrue hv =>
        rw [addAttempt, hid]
        simp only []
        have hvalid : isValidId i = true := isValidId_deterministicId _ _ hid
        split at h1
        case h_1 r hfind =>
          injection h1 with h1
          simp only [Prod.mk.injEq] at h1
          obtain ⟨hr, hst⟩ := h1
          subst hr
          subst hst
          have hpr := List.find?_some hfind
          have hrid : r.id = i := eq_of_beq hpr
          rw [if_pos (by
            rw [validAttempt] at hv ⊢
            simp only [Bool.and_eq_true] at hv ⊢
            exact ⟨⟨hv.1.1, hdt⟩, hv.2⟩), hfind]
          exact ⟨rfl, hrid ▸ hvalid, List.mem_of_find?_eq_some hfind⟩
        case h_2 hfind =>
          injection h1 with h1
          simp only [Prod.mk.injEq] at h1
          obtain ⟨hr, hst⟩ := h1
          subst hr
          subst hst
          rw [if_pos (by
            rw [validAttempt] at hv ⊢
            simp only [Bool.and_eq_true] at hv ⊢
            exact ⟨⟨hv.1.1, hdt⟩, hv.2⟩)]
          rw [find?_append_none _ _ hfind]
          simp [List.find?_cons, hvalid]

set_option maxRecDepth 4000 in
/-- C5, witness: the idempotence theorem applied to a concrete
knowledge item and a concrete attempt, after a first `add` into an
empty table. -/
theorem C5_witness :
    addKnowledgeItem wNow [c5KRow] c5KInput = .ok (c5KRow, [c5KRow]) ∧
    addAttempt wNow [c5ARow] c5AInput = .ok (c5ARow, [c5ARow]) :=
  ⟨(C5_add_idempotent.1 wNow wNow [] c5KInput c5KRow [c5KRow] rfl rfl).1,
   (C5_add_idempotent.2 wNow wNow [] c5AInput c5ARow [c5ARow] rfl rfl).1⟩

/-! ### Claim C2 -/

/-- Shortcut-free form of `updateAttempt`: whatever fields are supplied,
the result is the row-wise patch (with no supplied field the patch is
the identity, matching the skipped statement). -/
theorem updateAttempt_eq (st : List Attempt) (i : JStr) (upd : AttemptUpdates) :
    updateAttempt st i upd =
      st.map fun r => if r.id == i then applyAttemptPatch upd r else r := by
  rcases upd with ⟨us, ur, uc⟩
  have hpatch : us = none → ur = none → uc = none →
      ∀ r : Attempt, (if r.id == i then applyAttemptPatch ⟨us, ur, uc⟩ r else r) = r := by
    intro h1 h2 h3 r
    subst h1
    subst h2
    subst h3
    split
    · rfl
    · rfl
  cases us with
  | some sv => rfl
  | none =>
    cases ur with
    | some rv => rfl
    | none =>
      cases uc with
      | some cv => rfl
      | none =>
        rw [updateAttempt]
        exact (by
          rw [List.map_congr_left fun a _ => hpatch rfl rfl rfl a]
          exact List.map_id' st :
          st.map _ = st).symm

/-- C2, counterexample.  The stored status of the concrete attempt is
`completed`, a terminal state, yet a subsequent `updateAttempt`
supplying `status := running` changes the stored status: `updateAttempt`
performs no state-machine validation. -/
theorem C2_counterexample :
    c2Row.status = .completed ∧
    (updateAttempt [c2Row] (u "a1")
        { status := some .running, result := none, completedAt := none }).map
      Attempt.status = [.running] :=
  ⟨rfl, rfl⟩

/-- C2 (amended): `updateAttempt` patches the addressed row with exactly
the supplied fields and performs no status-transition validation: a
patch without a status leaves every stored status unchanged, while a
patch with a status overwrites the stored status with the supplied one
— including on rows whose stored status is terminal (`completed` or
`failed`); rows with a different id are untouched. -/
theorem C2_updateAttempt_unvalidated (st : List Attempt) (i : JStr) (upd : AttemptUpdates) :
    (upd.status = none →
      (updateAttempt st i upd).map Attempt.status = st.map Attempt.status) ∧
    (∀ s r, upd.status = some s → (applyAttemptPatch upd r).status = s) ∧
    (∀ r ∈ st, r.id = i → applyAttemptPatch upd r ∈ updateAttempt st i upd) ∧
    (∀ r ∈ st, r.id ≠ i → r ∈ updateAttempt st i upd) := by
  refine ⟨?_, ?_, ?_, ?_⟩
  · intro hs
    rw [updateAttempt_eq, List.map_map]
    apply List.map_congr_left
    intro r _
    cases h : (r.id == i) with
    | true => simp [Function.comp, h, applyAttemptPatch, hs]
    | false => simp [Function.comp, h]
  · intro s r hs
    simp [applyAttemptPatch, hs]
  · intro r hr hid
    rw [updateAttempt_eq]
    exact List.mem_map.mpr ⟨r, hr, by simp [hid]⟩
  · intro r hr hid
    rw [updateAttempt_eq]
    exact List.mem_map.mpr ⟨r, hr, by simp [beq_eq_false_iff_ne.mpr hid]⟩

/-- C2, witness: the amended theorem applied to the concrete terminal
attempt row — the patched status lands verbatim. -/
theorem C2_witness :
    (applyAttemptPatch { status := some .running, result := none, completedAt := none }
      c2Row).status = .running :=
  (C2_updateAttempt_unvalidated [c2Row] (u "a1")
      { status := some .running, result := none, completedAt := none }).2.1
    .running c2Row rfl

/-! ### Claim C7 -/

/-- Accumulation of one knowledge-item row across a feedback sequence:
each successful statement adds the deltas to the matching rows and the
check constraints keep every touched row non-negative. -/
theorem applyFeedbackSeq_tracks (now : JStr) (i : JStr) :
    ∀ (ds : List (Int × Int)) (st st' : List KnowledgeItem),
      applyFeedbackSeq now st i ds = .ok st' →
      (∀ r ∈ st, r.id = i →
        ∃ r' ∈ st', r'.id = i ∧ r'.helpful = r.helpful + (ds.map Prod.fst).sum ∧
          r'.harmful = r.harmful + (ds.map Prod.snd).sum) ∧
      ((∀ r ∈ st, 0 ≤ r.helpful ∧ 0 ≤ r.harmful) →
        ∀ r' ∈ st', 0 ≤ r'.helpful ∧ 0 ≤ r'.harmful) := by
  intro ds
  induction ds with
  | nil =>
    intro st st' h
    rw [applyFeedbackSeq] at h
    injection h with h
    subst h
    constructor
    · intro r hr hid
      exact ⟨r, hr, hid, by simp, by simp⟩
    · intro hvalid r' hr'
      exact hvalid r' hr'
  | cons d ds ih =>
    intro st st' h
    rw [applyFeedbackSeq] at h
    cases hup : updateKnowledgeItemFeedback now st i d.1 d.2 with
    | error e =>
      rw [hup] at h
      exact Except.noConfusion h
    | ok st2 =>
      rw [hup] at h
      rw [updateKnowledgeItemFeedback] at hup
      split at hup
      case isFalse => exact Except.noConfusion hup
      case isTrue hall =>
        injection hup with hup
        subst hup
        rcases ih _ _ h with ⟨ih1, ih2⟩
        constructor
        · intro r hr hid
          have hbeq : (r.id == i) = true := beq_iff_eq.mpr hid
          have hmem2 : ({ r with
              helpful := r.helpful + d.1
              harmful := r.harmful + d.2
              updatedAt := now } : KnowledgeItem) ∈
              st.map fun a => if a.id == i then
                { a with
                  helpful := a.helpful + d.1
                  harmful := a.harmful + d.2
                  updatedAt := now } else a := by
            exact List.mem_map.mpr ⟨r, hr, by simp [hbeq]⟩
          rcases ih1 _ hmem2 hid with ⟨r', hr', hid', hh, ha⟩
          refine ⟨r', hr', hid', ?_, ?_⟩
          · rw [hh]
            simp only [List.map_cons, List.sum_cons]
            omega
          · rw [ha]
            simp only [List.map_cons, List.sum_cons]
            omega
        · intro hvalid
          apply ih2
          intro r2 hr2
          rcases List.mem_map.mp hr2 with ⟨r0, hr0, rfl⟩
          cases hb : (r0.id == i) with
          | false => simpa [hb] using hvalid r0 hr0
          | true =>
            have hcheck := List.all_eq_true.mp hall r0 hr0
            simp only [hb, if_true, Bool.and_eq_true, decide_eq_true_eq] at hcheck
            simp only [hb, if_true]
            exact ⟨hcheck.1, hcheck.2⟩

/-- C7 (confirmed): starting from a stored row with `helpful = 0` and
`harmful = 0`, a sequence of `updateKnowledgeItemFeedback(id, h, a)`
calls in which every statement succeeds leaves the row with
`helpful = Σ h` and `harmful = Σ a`; and whenever the table satisfies
the `CHECK` constraints before the sequence, it satisfies them after —
the storage boundary rejects any statement that would take a counter
below zero, leaving the table unchanged. -/
theorem C7_feedback_totals (now : JStr) (st : List KnowledgeItem) (i : JStr)
    (ds : List (Int × Int)) (st' : List KnowledgeItem) (r : KnowledgeItem)
    (h : applyFeedbackSeq now st i ds = .ok st')
    (hr : r ∈ st) (hid : r.id = i) (h0 : r.helpful = 0) (ha0 : r.harmful = 0)
    (hvalid : ∀ a ∈ st, 0 ≤ a.helpful ∧ 0 ≤ a.harmful) :
    (st'.any fun r' =>
      r'.id == i && r'.helpful == (ds.map Prod.fst).sum &&
        r'.harmful == (ds.map Prod.snd).sum &&
        decide (0 ≤ r'.helpful) && decide (0 ≤ r'.harmful)) = true ∧
    (∀ a ∈ st', 0 ≤ a.helpful ∧ 0 ≤ a.harmful) := by
  rcases applyFeedbackSeq_tracks now i ds st st' h with ⟨h1, h2⟩
  have hall' := h2 hvalid
  rcases h1 r hr hid with ⟨r', hr', hid', hh, ha⟩
  refine ⟨?_, hall'⟩
  apply List.any_eq_true.mpr
  refine ⟨r', hr', ?_⟩
  have hnn := hall' r' hr'
  simp only [Bool.and_eq_true, beq_iff_eq, decide_eq_true_eq]
  refine ⟨⟨⟨⟨hid', ?_⟩, ?_⟩, hnn.1⟩, hnn.2⟩
  · rw [hh, h0]
    omega
  · rw [ha, ha0]
    omega

set_option maxRecDepth 4000 in
/-- C7, witness: the totals theorem applied to the concrete sequence
`[(1,2),(3,0)]` on a row starting at zero: the final row carries
`helpful = 4` and `harmful = 2`. -/
theorem C7_witness :
    ([c7RowAfter].any fun r' =>
      r'.id == u "k" && r'.helpful == ([((1:Int),(2:Int)),(3,0)].map Prod.fst).sum &&
        r'.harmful == ([((1:Int),(2:Int)),(3,0)].map Prod.snd).sum &&
        decide (0 ≤ r'.helpful) && decide (0 ≤ r'.harmful)) = true :=
  (C7_feedback_totals wNow [c7Row] (u "k") [(1,2),(3,0)] [c7RowAfter] c7Row rfl
    (by simp) rfl rfl rfl (by decide)).1

/-! ### Claim C4 -/

set_option maxRecDepth 8000 in
/-- C4, counterexample.  `addJudgePair` derives its id from the ordered
inputs and the table is unique on the ordered triple, so presenting the
same unordered attempt pair in the two orders creates two rows; and
`judge_outcomes` has no uniqueness on `pair_id`, so a second
`addJudgeOutcome` for the same pair with different content creates a
second row. -/
theorem C4_counterexample :
    addJudgePair wNow [] c4P1 = .ok (some c4Row1, [c4Row1]) ∧
    addJudgePair wNow [c4Row1] c4P2 = .ok (some c4Row2, [c4Row1, c4Row2]) ∧
    c4Row1.id ≠ c4Row2.id ∧
    addJudgeOutcome wNow [] c4O1 = .ok (some c4ORow1, [c4ORow1]) ∧
    addJudgeOutcome wNow [c4ORow1] c4O2 = .ok (some c4ORow2, [c4ORow1, c4ORow2]) ∧
    c4ORow1.pairId = c4ORow2.pairId :=
  ⟨rfl, rfl, by decide, rfl, rfl, rfl⟩

/-- C4 (amended): uniqueness holds for the ordered pair, not the
unordered one.  Re-presenting identical inputs to `addJudgePair`
resolves to the same row and leaves the table unchanged; the table
admits at most one row per ordered triple `(runId, leftAttemptId,
rightAttemptId)`; and a second `addJudgeOutcome` with identical content
resolves to the same row without inserting (while, per the
counterexample, a swapped pair or an outcome with different content for
the same pair id does insert a second row). -/
theorem C4_pair_outcome_ordered :
    (∀ (now1 now2 : JStr) (st : List JudgePair) (x : JudgePairInput)
      (r1 : Option JudgePair) (st1 : List JudgePair),
      addJudgePair now1 st x = .ok (r1, st1) → isDatetime now2 = true →
      addJudgePair now2 st1 x = .ok (r1, st1)) ∧
    (∀ (now : JStr) (st : List JudgePair) (x : JudgePairInput)
      (r1 : Option JudgePair) (st1 : List JudgePair),
      addJudgePair now st x = .ok (r1, st1) →
      (∀ r a, r ∈ st → a ∈ st → pairTriple r = pairTriple a → r = a) →
      (∀ r a, r ∈ st1 → a ∈ st1 → pairTriple r = pairTriple a → r = a)) ∧
    (∀ (now1 now2 : JStr) (st : List JudgeOutcome) (x : JudgeOutcomeInput)
      (r1 : Option JudgeOutcome) (st1 : List JudgeOutcome),
      addJudgeOutcome now1 st x = .ok (r1, st1) → isDatetime now2 = true →
      addJudgeOutcome now2 st1 x = .ok (r1, st1)) := by
  refine ⟨?_, ?_, ?_⟩
  · intro now1 now2 st x r1 st1 h1 hdt
    rw [addJudgePair] at h1
    cases hid : deterministicId x.toJVal with
    | error e =>
      rw [hid] at h1
      exact Except.noConfusion h1
    | ok i =>
      rw [hid] at h1
      simp only [] at h1
      split at h1
      case isFalse => exact Except.noConfusion h1
      case isTrue hv =>
        rw [addJudgePair, hid]
        simp only []
        rw [if_pos (by
          rw [validJudgePair] at hv ⊢
          simp only [Bool.and_eq_true] at hv ⊢
          exact ⟨hv.1, hdt⟩)]
        split at h1
        case isTrue hany =>
          injection h1 with h1
          simp only [Prod.mk.injEq] at h1
          obtain ⟨hr, hst⟩ := h1
          subst hr
          subst hst
          rw [if_pos hany]
        case isFalse hany =>
          injection h1 with h1
          simp only [Prod.mk.injEq] at h1
          obtain ⟨hr, hst⟩ := h1
          subst hr
          subst hst
          have hfind : st.find? (fun r => r.id == i) = none := by
            apply List.find?_eq_none.mpr
            intro r hrmem
            have hcr := Bool.eq_false_iff.mpr
              (List.any_eq_false.mp (Bool.eq_false_iff.mpr hany) r hrmem)
            rw [Bool.or_eq_false_iff] at hcr
            simp [hcr.1]
          rw [if_pos (by
            rw [List.any_append]
            simp)]
          rw [find?_append_none _ _ hfind]
          simp [List.find?_cons]
  · intro now st x r1 st1 h1 huniq
    rw [addJudgePair] at h1
    cases hid : deterministicId x.toJVal with
    | error e =>
      rw [hid] at h1
      exact Except.noConfusion h1
    | ok i =>
      rw [hid] at h1
      simp only [] at h1
      split at h1
      case isFalse => exact Except.noConfusion h1
      case isTrue hv =>
        split at h1
        case isTrue hany =>
          injection h1 with h1
          simp only [Prod.mk.injEq] at h1
          obtain ⟨hr, hst⟩ := h1
          subst hst
          exact huniq
        case isFalse hany =>
          injection h1 with h1
          simp only [Prod.mk.injEq] at h1
          obtain ⟨hr, hst⟩ := h1
          subst hst
          have hnotriple : ∀ r ∈ st,
              (r.runId == x.runId && r.leftAttemptId == x.leftAttemptId &&
                r.rightAttemptId == x.rightAttemptId) = false := by
            intro r hrmem
            have hcr := Bool.eq_false_iff.mpr
              (List.any_eq_false.mp (Bool.eq_false_iff.mpr hany) r hrmem)
            rw [Bool.or_eq_false_iff] at hcr
            exact hcr.2
          intro r a hrm ham htr
          rcases List.mem_append.mp hrm with hrs | hrf
          · rcases List.mem_append.mp ham with has | haf
            · exact huniq r a hrs has htr
            · exfalso
              simp only [List.mem_singleton] at haf
              subst haf
              have := hnotriple r hrs
              rw [pairTriple, pairTriple] at htr
              simp only [Prod.mk.injEq] at htr
              simp [htr.1, htr.2.1, htr.2.2] at this
          · simp only [List.mem_singleton] at hrf
            subst hrf
            rcases List.mem_append.mp ham with has | haf
            · exfalso
              have := hnotriple a has
              rw [pairTriple, pairTriple] at htr
              simp only [Prod.mk.injEq] at htr
              simp [htr.1.symm, htr.2.1.symm, htr.2.2.symm] at this
            · simp only [List.mem_singleton] at haf
              subst haf
              rfl
  · intro now1 now2 st x r1 st1 h1 hdt
    rw [addJudgeOutcome] at h1
    cases hid : deterministicId x.toJVal with
    | error e =>
      rw [hid] at h1
      exact Except.noConfusion h1
    | ok i =>
      rw [hid] at h1
      simp only [] at h1
      split at h1
      case isFalse => exact Except.noConfusion h1
      case isTrue hv =>
        rw [addJudgeOutcome, hid]
        simp only []
        rw [if_pos (by
          rw [validJudgeOutcome] at hv ⊢
          simp only [Bool.and_eq_true] at hv ⊢
          exact ⟨hv.1, hdt⟩)]
        split at h1
        case isTrue hany =>
          injection h1 with h1
          simp only [Prod.mk.injEq] at h1
          obtain ⟨hr, hst⟩ := h1
          subst hr
          subst hst
          rw [if_pos hany]
        case isFalse hany =>
          injection h1 with h1
          simp only [Prod.mk.injEq] at h1
          obtain ⟨hr, hst⟩ := h1
          subst hr
          subst hst
          have hfind : st.find? (fun r => r.id == i) = none := by
            apply List.find?_eq_none.mpr
            intro r hrmem
            have hcr := Bool.eq_false_iff.mpr
              (List.any_eq_false.mp (Bool.eq_false_iff.mpr hany) r hrmem)
            simp [hcr]
          rw [if_pos (by
            rw [List.any_append]
            simp)]
          rw [find?_append_none _ _ hfind]
          simp [List.find?_cons]

set_option maxRecDepth 8000 in
/-- C4, witness: the ordered-idempotence parts applied to the concrete
pair and outcome after their first insertion. -/
theorem C4_witness :
    addJudgePair wNow [c4Row1] c4P1 = .ok (some c4Row1, [c4Row1]) ∧
    addJudgeOutcome wNow [c4ORow1] c4O1 = .ok (some c4ORow1, [c4ORow1]) :=
  ⟨C4_pair_outcome_ordered.1 wNow wNow [] c4P1 (some c4Row1) [c4Row1] rfl rfl,
   C4_pair_outcome_ordered.2.2 wNow wNow [] c4O1 (some c4ORow1) [c4ORow1] rfl rfl⟩

/-! ### Claim C3 -/

/-- Store shape after `addInsight`: either unchanged (ignored insert) or
extended by one row carrying the input fields. -/
theorem addInsight_store_shape (now : JStr) (st : List Insight) (x : InsightInput)
    (r1 : Insight) (st1 : List Insight) (h : addInsight now st x = .ok (r1, st1)) :
    st1 = st ∨ ∃ rf, st1 = st ++ [rf] ∧ rf.relatedBeads = x.relatedBeads := by
  rw [addInsight] at h
  cases hid : deterministicId x.toJVal with
  | error e =>
    rw [hid] at h
    exact Except.noConfusion h
  | ok i =>
    rw [hid] at h
    simp only [] at h
    split at h
    case isFalse => exact Except.noConfusion h
    case isTrue hv =>
      split at h
      case h_1 r hfind =>
        injection h with h
        simp only [Prod.mk.injEq] at h
        exact Or.inl h.2.symm
      case h_2 hfind =>
        injection h with h
        simp only [Prod.mk.injEq] at h
        exact Or.inr ⟨_, h.2.symm, rfl⟩

/-- Every row the reflect loop adds carries the non-empty subject ids of
all failed traces. -/
theorem reflectInsert_store (now : JStr) (failedTraces : List Trace)
    (existing : List Insight) :
    ∀ (pats : List (JStr × ErrorPattern)) (store store' : List Insight),
      reflectInsert now failedTraces existing pats store = .ok store' →
      ∀ r ∈ store', r ∈ store ∨
        r.relatedBeads = (failedTraces.map Trace.beadId).filter fun b => !b.isEmpty := by
  intro pats
  induction pats with
  | nil =>
    intro store store' h r hr
    rw [reflectInsert] at h
    injection h with h
    subst h
    exact Or.inl hr
  | cons p rest ih =>
    rcases p with ⟨k, pat⟩
    intro store store' h r hr
    rw [reflectInsert] at h
    simp only [] at h
    generalize (if 0 < failedTraces.length then
      ratMin (mkRat pat.traceIds.length failedTraces.length) 1 else 0) = conf at h
    split at h
    case isTrue hconf =>
      split at h
      case isTrue hdup => exact ih store store' h r hr
      case isFalse hdup =>
        split at h
        · exact Except.noConfusion h
        · rename_i fst store2 heq
          rcases ih _ _ h r hr with hmem | hbeads
          · rcases addInsight_store_shape now store _ fst store2 heq with hsame | ⟨rf, hext, hbe⟩
            · rw [hsame] at hmem
              exact Or.inl hmem
            · rw [hext] at hmem
              rcases List.mem_append.mp hmem with hl | hr2
              · exact Or.inl hl
              · simp only [List.mem_singleton] at hr2
                subst hr2
                exact Or.inr hbe
          · exact Or.inr hbeads
    case isFalse hconf => exact ih store store' h r hr

/-- C3 (amended): every candidate insight that reflect inserts has
`relatedBeads` equal to the non-empty subject ids of ALL failed traces,
in listing order and with duplicates retained — the list is not
restricted to the traces containing the candidate's error group and is
not deduplicated. -/
theorem C3_related_subjects_all_failed (now : JStr) (failedTraces : List Trace)
    (store store' : List Insight) (h : reflectCommand now failedTraces store = .ok store') :
    ∀ r ∈ store', r ∈ store ∨
      r.relatedBeads = (failedTraces.map Trace.beadId).filter fun b => !b.isEmpty := by
  rw [reflectCommand] at h
  exact reflectInsert_store now failedTraces (listInsights store) (collectPatterns failedTraces)
    store store' h

set_option maxRecDepth 8000 in
/-- C3, counterexample.  Over the two failed traces `c3T1` (subject
`b1`, containing the group `(t, f, m)`) and `c3T2` (subject `b2`, not
containing it), reflect emits one candidate for the group whose
`relatedBeads` is `["b1", "b2"]` — the subjects of all failed traces —
whereas the set of distinct non-empty subject ids of the traces
containing the group is `["b1"]`. -/
theorem C3_counterexample :
    reflectCommand wNow [c3T1, c3T2] [] = .ok [c3Ins] ∧
    c3Ins.pattern = u "t" ++ u " error in " ++ u "f" ∧
    c3Ins.description = u "m" ∧
    c3Ins.relatedBeads = [u "b1", u "b2"] ∧
    specRelatedSubjects [c3T1, c3T2] (u "t") (u "f") (u "m") = [u "b1"] ∧
    ¬ c3Ins.relatedBeads = specRelatedSubjects [c3T1, c3T2] (u "t") (u "f") (u "m") :=
  ⟨rfl, rfl, rfl, rfl, rfl, by decide⟩

set_option maxRecDepth 8000 in
/-- C3, witness: the amended theorem applied to the concrete pair of
failed traces; the single emitted candidate indeed carries the subject
ids of all failed traces. -/
theorem C3_witness :
    c3Ins ∈ ([] : List Insight) ∨
      c3Ins.relatedBeads = ([c3T1, c3T2].map Trace.beadId).filter fun b => !b.isEmpty :=
  C3_related_subjects_all_failed wNow [c3T1, c3T2] [] [c3Ins] rfl c3Ins (by simp)

/-! ### Claims C1 and C8: applyCommand -/

theorem promoteLoop_frame (now pid : JStr) :
    ∀ (l : List Insight) (w : ApplyWorld) (acc : PromotionCounts),
      (promoteLoop now pid l w acc).2.dbExists = w.dbExists ∧
      (promoteLoop now pid l w acc).2.insights = w.insights ∧
      (promoteLoop now pid l w acc).2.knowledgeItems = w.knowledgeItems ∧
      (promoteLoop now pid l w acc).2.agentsMd = w.agentsMd ∧
      (promoteLoop now pid l w acc).2.writes = w.writes
  | [], _, _ => ⟨rfl, rfl, rfl, rfl, rfl⟩
  | ins :: rest, w, acc => by
    simp only [promoteLoop]
    split
    · exact ⟨rfl, rfl, rfl, rfl, rfl⟩
    · split
      · exact ⟨rfl, rfl, rfl, rfl, rfl⟩
      · exact promoteLoop_frame now pid rest _ _

theorem promote_frame (now : JStr) (w : ApplyWorld) :
    (promoteInsightsToWorkingMemory now w).2.dbExists = w.dbExists ∧
    (promoteInsightsToWorkingMemory now w).2.insights = w.insights ∧
    (promoteInsightsToWorkingMemory now w).2.knowledgeItems = w.knowledgeItems ∧
    (promoteInsightsToWorkingMemory now w).2.agentsMd = w.agentsMd ∧
    (promoteInsightsToWorkingMemory now w).2.writes = w.writes := by
  have h := promoteLoop_frame now (u ".") (listInsightsMin (mkRat 4 5) w.insights) w ⟨0, 0, 0⟩
  simp only [promoteInsightsToWorkingMemory]
  split
  · rename_i e w2 heq
    rw [heq] at h
    exact h
  · rename_i c w2 heq
    rw [heq] at h
    exact h

/-- C1 (corrected): with the database present and the document present
but its markers missing or inverted, `applyCommand` fails and leaves
the document, the write counter, the knowledge table and the insight
table untouched; the insight promotion, however, has already run before
the marker check, so the claimed absence of database mutation does not
hold (the counterexample exhibits a grown working memory and event
log). -/
theorem C1_marker_error_after_promotion (cmp : JStr → JStr → Int) (now : JStr)
    (w : ApplyWorld) (content : JStr)
    (hdb : w.dbExists = true) (hmd : w.agentsMd = some content)
    (hbad : markersBad content = true) :
    (applyCommand cmp now w).1.isOk = false ∧
    ((applyCommand cmp now w).2).agentsMd = w.agentsMd ∧
    ((applyCommand cmp now w).2).writes = w.writes ∧
    ((applyCommand cmp now w).2).knowledgeItems = w.knowledgeItems ∧
    ((applyCommand cmp now w).2).insights = w.insights := by
  have hf := promote_frame now w
  simp only [applyCommand, hdb, Bool.not_true, Bool.false_eq_true, if_false]
  split
  · rename_i e w1 heq
    rw [heq] at hf
    dsimp only at hf
    exact ⟨rfl, hf.2.2.2.1, hf.2.2.2.2, hf.2.2.1, hf.2.1⟩
  · rename_i c w1 heq
    rw [heq] at hf
    dsimp only at hf
    rw [hf.2.2.2.1, hmd]
    split
    · rename_i heq0
      exact Option.noConfusion heq0
    · rename_i content2 heq0
      injection heq0 with heq0
      subst heq0
      split
      · rename_i s e heq2 heq3
        have hms : markersBad content = decide (e ≤ s) := by
          unfold markersBad
          rw [heq2, heq3]
        rw [hms] at hbad
        rw [if_pos (of_decide_eq_true hbad)]
        exact ⟨rfl, hf.2.2.2.1.trans hmd, hf.2.2.2.2, hf.2.2.1, hf.2.1⟩
      · exact ⟨rfl, hf.2.2.2.1.trans hmd, hf.2.2.2.2, hf.2.2.1, hf.2.1⟩

set_option maxRecDepth 8000 in
/-- C1 counterexample to the claim as stated: bad markers make
`applyCommand` fail without touching the document, yet the database has
been mutated — the promotion, which runs before the marker check,
inserted a working-memory row and recorded a memory event. -/
theorem C1_counterexample :
    markersBad c1Doc = true ∧
    (applyCommand cmp0 wNow c1World).1.isOk = false ∧
    c1World.workingMemory.length = 0 ∧ c1World.memoryEvents.length = 0 ∧
    ((applyCommand cmp0 wNow c1World).2).workingMemory.length = 1 ∧
    ((applyCommand cmp0 wNow c1World).2).memoryEvents.length = 1 :=
  ⟨rfl, rfl, rfl, rfl, rfl, rfl⟩

set_option maxRecDepth 8000 in
/-- Witness instantiating `C1_marker_error_after_promotion` at the
concrete marker-less world. -/
theorem C1_witness :
    (applyCommand cmp0 wNow c1World).1.isOk = false ∧
    ((applyCommand cmp0 wNow c1World).2).agentsMd = c1World.agentsMd :=
  ⟨(C1_marker_error_after_promotion cmp0 wNow c1World c1Doc rfl rfl rfl).1,
   (C1_marker_error_after_promotion cmp0 wNow c1World c1Doc rfl rfl rfl).2.1⟩

/-- C8 (confirmed): with the database present and a document whose
markers are well formed, `applyCommand` produces exactly the preserved
prefix (the units before the begin marker), the freshly rendered
region, and the preserved suffix (the units from the end marker on);
the returned `rendered` flag is true exactly when this new content
differs from the old, and the write counter is bumped exactly when
`rendered` is true. -/
theorem C8_preserved_surroundings (cmp : JStr → JStr → Int) (now : JStr)
    (w : ApplyWorld) (content : JStr) (s e : Nat)
    (hdb : w.dbExists = true) (hmd : w.agentsMd = some content)
    (hs : strIndexOf content beginMarker = some s)
    (he : strIndexOf content endMarker = some e)
    (hse : s < e)
    (hprom : (promoteInsightsToWorkingMemory now w).1.isOk = true) :
    ((applyCommand cmp now w).2).agentsMd = some (newContentOf cmp now w content s e) ∧
    ((applyCommand cmp now w).1).map ApplyResult.rendered =
      .ok (!(newContentOf cmp now w content s e == content)) ∧
    ((applyCommand cmp now w).2).writes =
      w.writes + (if newContentOf cmp now w content s e == content then 0 else 1) := by
  have hf := promote_frame now w
  simp only [applyCommand, hdb, Bool.not_true, Bool.false_eq_true, if_false]
  split
  · rename_i e1 w1 heq
    rw [heq] at hprom
    exact absurd hprom (by simp [Except.isOk, Except.toBool])
  · rename_i c w1 heq
    rw [heq] at hf
    dsimp only at hf
    have hnc : newContentOf cmp now w content s e =
        content.take s ++ renderRegion (applyKnowledgeView cmp w1) (applyWmView w1) ++
          content.drop e := by
      simp only [newContentOf, applyRegionOf, promotedWorld, heq]
    rw [hf.2.2.2.1, hmd]
    split
    · rename_i heq0
      exact Option.noConfusion heq0
    · rename_i content2 heq0
      injection heq0 with heq0
      subst heq0
      split
      · rename_i s' e' heq2 heq3
        rw [hs] at heq2
        rw [he] at heq3
        injection heq2 with heq2
        injection heq3 with heq3
        subst heq2
        subst heq3
        rw [if_neg (by omega : ¬ e ≤ s)]
        rw [hnc]
        cases hb : (content.take s ++ renderRegion (applyKnowledgeView cmp w1)
            (applyWmView w1) ++ content.drop e) == content with
        | true =>
          have hbe := eq_of_beq hb
          refine ⟨?_, ?_, ?_⟩
          · simp only [hb, Bool.not_true, Bool.false_eq_true, if_false]
            rw [hf.2.2.2.1, hmd, hbe]
          · simp only [hb, Except.map]
          · simp only [hb, Bool.not_true, Bool.false_eq_true, if_false, if_true]
            rw [hf.2.2.2.2]
            exact (Nat.add_zero _).symm
        | false =>
          refine ⟨?_, ?_, ?_⟩
          · simp only [hb, Bool.not_false, if_true]
          · simp only [hb, Except.map]
          · simp only [hb, Bool.not_false, if_true, Bool.false_eq_true, if_false]
            rw [hf.2.2.2.2]
      · rename_i hnone
        exact absurd (hnone s e hs he) (by simp)

set_option maxRecDepth 4000 in
/-- Witness instantiating `C8_preserved_surroundings` at a concrete
well-formed document over empty tables. -/
theorem C8_witness :
    ((applyCommand cmp0 wNow c8World).2).agentsMd =
      some (newContentOf cmp0 wNow c8World c8Doc 8 45) ∧
    ((applyCommand cmp0 wNow c8World).1).map ApplyResult.rendered =
      .ok (!(newContentOf cmp0 wNow c8World c8Doc 8 45 == c8Doc)) :=
  ⟨(C8_preserved_surroundings cmp0 wNow c8World c8Doc 8 45 rfl rfl rfl rfl (by decide)
      rfl).1,
   (C8_preserved_surroundings cmp0 wNow c8World c8Doc 8 45 rfl rfl rfl rfl (by decide)
      rfl).2.1⟩

/-! ### Claims C9 and C10: bbonRunCommand -/

theorem isOk_exists {ε α : Type} {e : Except ε α} (h : e.isOk = true) :
    ∃ a, e = .ok a := by
  cases e with
  | error e => simp [Except.isOk, Except.toBool] at h
  | ok a => exact ⟨a, rfl⟩

theorem canonNumber_int (k : Int) : canonNumber (mkRat k 1) = .ok (intStr k) := by
  have hd : (mkRat k 1).den = 1 := by simp [Rat.mkRat_one]
  have hn : (mkRat k 1).num = k := by simp [Rat.mkRat_one]
  rw [canonNumber, if_pos hd, hn]

theorem canonFieldsList_cons_ok (k : JStr) (v : JVal) (rest : JFields)
    (hv : v.isUndef = false) (cv : JStr) (hcv : canonV v = .ok cv)
    (crest : List (JStr × JStr)) (hcr : canonFieldsList rest = .ok crest) :
    canonFieldsList (.cons k v rest) = .ok ((k, cv) :: crest) := by
  simp only [canonFieldsList, hv, Bool.false_eq_true, if_false, hcv, hcr]

theorem canonV_singleField_isOk (k : JStr) (v : JVal) (cv : JStr)
    (hnu : v.isUndef = false) (hv : canonV v = .ok cv) :
    (canonV (.jobj (JFields.ofList [(k, v)]))).isOk = true := by
  have h1 : canonFieldsList (JFields.ofList [(k, v)]) = .ok [(k, cv)] :=
    canonFieldsList_cons_ok k v .nil hnu cv hv [] rfl
  simp only [canonV]
  rw [h1]
  rfl

theorem canonV_stepInput_isOk (x : AttemptStepInput)
    (hin : (canonV (.jobj x.input)).isOk = true)
    (hout : (canonV (.jobj x.output)).isOk = true)
    (hobs : (canonV (.jobj x.observation)).isOk = true) :
    (canonV x.toJVal).isOk = true := by
  obtain ⟨ci, hci⟩ := isOk_exists hin
  obtain ⟨co, hco⟩ := isOk_exists hout
  obtain ⟨cb, hcb⟩ := isOk_exists hobs
  have hnum : canonV (.jnum (mkRat x.stepIndex 1)) = .ok (intStr x.stepIndex) := by
    simp only [canonV]
    exact canonNumber_int _
  have h5 := canonFieldsList_cons_ok (u "observation") (.jobj x.observation) .nil rfl
    cb hcb [] rfl
  have h4 := canonFieldsList_cons_ok (u "output") (.jobj x.output) _ rfl co hco _ h5
  have h3 := canonFieldsList_cons_ok (u "input") (.jobj x.input) _ rfl ci hci _ h4
  have h2 := canonFieldsList_cons_ok (u "kind") (.jstr x.kind) _ rfl
    (jsonQuote x.kind) rfl _ h3
  have h1 := canonFieldsList_cons_ok (u "stepIndex") (.jnum (mkRat x.stepIndex 1)) _ rfl
    (intStr x.stepIndex) hnum _ h2
  have h0 := canonFieldsList_cons_ok (u "attemptId") (.jstr x.attemptId) _ rfl
    (jsonQuote x.attemptId) rfl _ h1
  have h0' : canonFieldsList (JFields.ofList
      [(u "attemptId", JVal.jstr x.attemptId),
       (u "stepIndex", JVal.jnum (mkRat x.stepIndex 1)),
       (u "kind", JVal.jstr x.kind),
       (u "input", JVal.jobj x.input),
       (u "output", JVal.jobj x.output),
       (u "observation", JVal.jobj x.observation)]) =
      .ok [(u "attemptId", jsonQuote x.attemptId),
           (u "stepIndex", intStr x.stepIndex),
           (u "kind", jsonQuote x.kind),
           (u "input", ci), (u "output", co), (u "observation", cb)] := h0
  simp only [AttemptStepInput.toJVal, jsObj, canonV]
  rw [h0']
  rfl

theorem addAttemptStep_ok (now : JStr) (st : List AttemptStep) (x : AttemptStepInput)
    (hnow : isDatetime now = true) (hidx : decide ((0 : Int) ≤ x.stepIndex) = true)
    (hcanon : (canonV x.toJVal).isOk = true) :
    ∃ r st2, addAttemptStep now st x = .ok (r, st2) := by
  obtain ⟨c, hc⟩ := isOk_exists hcanon
  have hid : deterministicId x.toJVal = .ok (sha256Hex (utf8Encode c)) := by
    rw [deterministicId, hc]
  rw [addAttemptStep, hid]
  simp only []
  have hvalid : validAttemptStep
      { id := sha256Hex (utf8Encode c), attemptId := x.attemptId,
        stepIndex := x.stepIndex, kind := x.kind, input := x.input, output := x.output,
        observation := x.observation, createdAt := now } = true := by
    rw [validAttemptStep]
    simp only [Bool.and_eq_true]
    exact ⟨⟨isValidId_sha256Hex _, hidx⟩, hnow⟩
  rw [if_pos hvalid]
  cases hf : st.find? (fun r => r.id == sha256Hex (utf8Encode c)) with
  | some r => exact ⟨r, st, rfl⟩
  | none => exact ⟨_, _, rfl⟩

theorem addAttempt_mem (now : JStr) (st : List Attempt) (x : AttemptInput)
    (r : Attempt) (st2 : List Attempt) (h : addAttempt now st x = .ok (r, st2)) :
    ∀ a ∈ st2, a ∈ st ∨ a.id = r.id := by
  rw [addAttempt] at h
  split at h
  · exact Except.noConfusion h
  · rename_i i hid
    simp only [] at h
    split at h
    case isFalse => exact Except.noConfusion h
    case isTrue hv =>
      split at h
      case h_1 r0 hfind =>
        injection h with h
        simp only [Prod.mk.injEq] at h
        obtain ⟨hr, hst⟩ := h
        subst hr
        subst hst
        intro a ha
        exact Or.inl ha
      case h_2 hfind =>
        injection h with h
        simp only [Prod.mk.injEq] at h
        obtain ⟨hr, hst⟩ := h
        subst hr
        subst hst
        intro a ha
        rcases List.mem_append.mp ha with h1 | h1
        · exact Or.inl h1
        · rw [List.mem_singleton] at h1
          subst h1
          exact Or.inr rfl

theorem updateAttempt_run_inv (st : List Attempt) (i : JStr)
    (h : ∀ a ∈ st, a.completedAt.isSome = true ∨ a.id = i) :
    ∀ a ∈ updateAttempt st i
        { status := some .running, result := none, completedAt := none },
      a.completedAt.isSome = true ∨ a.id = i := by
  intro a ha
  rw [updateAttempt_eq] at ha
  obtain ⟨b, hb, hab⟩ := List.mem_map.mp ha
  by_cases hbi : (b.id == i) = true
  · rw [if_pos hbi] at hab
    subst hab
    rcases h b hb with hc | hid
    · exact Or.inl hc
    · exact Or.inr hid
  · rw [if_neg hbi] at hab
    subst hab
    exact h b hb

theorem updateAttempt_final_inv (st : List Attempt) (i : JStr) (s : AttemptStatus)
    (res : JFields) (t : JStr)
    (h : ∀ a ∈ st, a.completedAt.isSome = true ∨ a.id = i) :
    ∀ a ∈ updateAttempt st i
        { status := some s, result := some res, completedAt := some t },
      a.completedAt.isSome = true := by
  intro a ha
  rw [updateAttempt_eq] at ha
  obtain ⟨b, hb, hab⟩ := List.mem_map.mp ha
  by_cases hbi : (b.id == i) = true
  · rw [if_pos hbi] at hab
    subst hab
    rfl
  · rw [if_neg hbi] at hab
    subst hab
    rcases h b hb with hc | hid
    · exact hc
    · exact absurd (beq_iff_eq.mpr hid) hbi

theorem bbonCatch_attempts (now aid : JStr) (lr : Option JFields) (msg : String)
    (w : BbonWorld) : (bbonCatch now aid lr msg w).2.attempts = w.attempts := by
  unfold bbonCatch
  cases addAttemptStep now w.attemptSteps
      { attemptId := aid,
        stepIndex := (match lr with | some _ => (1 : Int) | none => 0),
        kind := u "error", input := .nil, output := .nil,
        observation := JFields.ofList [(u "error", JVal.jstr (u msg))] } with
  | error e => rfl
  | ok pr =>
    cases pr with
    | mk r st2 => rfl

theorem bbonTryBlock_attempts (now : JStr) (spec : TaskSpec) (aid : JStr)
    (learn : Nat → Except String JFields) (i : Nat) (w : BbonWorld) :
    (bbonTryBlock now spec aid learn i w).2.attempts = w.attempts := by
  unfold bbonTryBlock
  split
  · exact bbonCatch_attempts now aid none _ w
  · split
    · exact bbonCatch_attempts now aid none _ _
    · split
      · exact bbonCatch_attempts now aid (some _) _ _
      · rfl

theorem bbonAttemptIteration_inv (now : JStr) (spec : TaskSpec) (runId : JStr)
    (learn : Nat → Except String JFields) (i : Nat) (w : BbonWorld)
    (hinv : ∀ a ∈ w.attempts, a.completedAt.isSome = true) :
    ∀ r wfin, bbonAttemptIteration now spec runId learn i w = (.ok r, wfin) →
      ∀ a ∈ wfin.attempts, a.completedAt.isSome = true := by
  intro r wfin h
  rw [bbonAttemptIteration] at h
  split at h
  · simp at h
  · rename_i attempt at2 hadd
    split at h
    · simp at h
    · rename_i fs res w4 htry
      injection h with h1 h2
      subst h2
      have hw4 : w4.attempts =
          updateAttempt at2 attempt.id
            { status := some .running, result := none, completedAt := none } := by
        have hfr := bbonTryBlock_attempts now spec attempt.id learn i
          { w with attempts := (updateAttempt at2 attempt.id
              { status := some .running, result := none, completedAt := none }) }
        rw [htry] at hfr
        exact hfr
      have hQ1 : ∀ a ∈ at2, a.completedAt.isSome = true ∨ a.id = attempt.id := by
        intro a ha
        rcases addAttempt_mem now w.attempts _ attempt at2 hadd a ha with h1 | h1
        · exact Or.inl (hinv a h1)
        · exact Or.inr h1
      have hQ2 := updateAttempt_run_inv at2 attempt.id hQ1
      intro a ha
      refine updateAttempt_final_inv w4.attempts attempt.id fs res now ?_ a ha
      intro b hb
      rw [hw4] at hb
      exact hQ2 b hb

theorem bbonLoop_inv (now : JStr) (spec : TaskSpec) (runId : JStr)
    (learn : Nat → Except String JFields) :
    ∀ (l : List Nat) (w : BbonWorld),
      (∀ a ∈ w.attempts, a.completedAt.isSome = true) →
      ∀ r wfin, bbonLoop now spec runId learn l w = (.ok r, wfin) →
        ∀ a ∈ wfin.attempts, a.completedAt.isSome = true
  | [], w => by
    intro hinv r wfin h
    injection h with h1 h2
    subst h2
    exact hinv
  | i :: rest, w => by
    intro hinv r wfin h
    simp only [bbonLoop] at h
    split at h
    · simp at h
    · rename_i r2 w2 hit
      exact bbonLoop_inv now spec runId learn rest w2
        (bbonAttemptIteration_inv now spec runId learn i w hinv r2 w2 hit) r wfin h

/-- C10 (confirmed): starting from an empty attempts table, when
`bbonRunCommand` returns normally every stored attempt carries a
`completedAt` stamp — the final `updateAttempt` of the loop body always
supplies `completedAt`, on the failed path exactly as on the completed
one. -/
theorem C10_completedAt_always_stamped (now : JStr) (spec : TaskSpec) (n seed : Int)
    (config : JFields) (learn : Nat → Except String JFields) (w : BbonWorld)
    (hempty : w.attempts = [])
    (hok : (bbonRunCommand now spec n seed config learn w).1.isOk = true) :
    ((bbonRunCommand now spec n seed config learn w).2).attempts.all
      (fun a => a.completedAt.isSome) = true := by
  rcases hc : bbonRunCommand now spec n seed config learn w with ⟨res, wfin⟩
  rw [hc] at hok
  dsimp only at hok ⊢
  rw [List.all_eq_true]
  simp only [bbonRunCommand] at hc
  split at hc
  · injection hc with h1 h2
    subst h1
    simp [Except.isOk, Except.toBool] at hok
  · split at hc
    · injection hc with h1 h2
      subst h1
      simp [Except.isOk, Except.toBool] at hok
    · rename_i task ts2 htask
      split at hc
      · injection hc with h1 h2
        subst h1
        simp [Except.isOk, Except.toBool] at hok
      · rename_i run rs2 hrun
        split at hc
        · injection hc with h1 h2
          subst h1
          simp [Except.isOk, Except.toBool] at hok
        · rename_i r3 w3 hloop
          injection hc with h1 h2
          subst h2
          intro a ha
          refine bbonLoop_inv now spec run.id learn (List.range n.toNat) _ ?_
            r3 _ hloop a ha
          intro b hb
          have hb2 : b ∈ w.attempts := hb
          rw [hempty] at hb2
          cases hb2

set_option maxRecDepth 8000 in
/-- C10, witness: one run of one attempt with a successful learn cycle
over the empty world; the stored attempt ends stamped. -/
theorem C10_witness :
    ((bbonRunCommand wNow c9Spec 1 1 .nil c10Learn bbonWorld0).2).attempts.all
      (fun a => a.completedAt.isSome) = true :=
  C10_completedAt_always_stamped wNow c9Spec 1 1 .nil c10Learn bbonWorld0 rfl rfl

theorem bbonCatch_ok (now aid : JStr) (lr : Option JFields) (msg : String)
    (w : BbonWorld) (hnow : isDatetime now = true) :
    ∃ res st2, bbonCatch now aid lr msg w =
      (.ok res,
       { w with
         attemptSteps := st2
         stepLog := w.stepLog ++
           [(aid, (match lr with | some _ => (1 : Int) | none => 0), u "error")] }) := by
  have hcanon : (canonV (AttemptStepInput.toJVal
      { attemptId := aid,
        stepIndex := (match lr with | some _ => (1 : Int) | none => 0),
        kind := u "error", input := .nil, output := .nil,
        observation := JFields.ofList [(u "error", JVal.jstr (u msg))] })).isOk = true :=
    canonV_stepInput_isOk _ rfl rfl
      (canonV_singleField_isOk (u "error") (.jstr (u msg)) (jsonQuote (u msg)) rfl rfl)
  obtain ⟨r, st2, hadd⟩ := addAttemptStep_ok now w.attemptSteps _ hnow
    (by cases lr <;> rfl) hcanon
  unfold bbonCatch
  rw [hadd]
  clear hcanon hadd
  exact ⟨(.failed, match lr with | some r0 => r0 | none => .nil), st2, rfl⟩

theorem bbonTryBlock_ok (now : JStr) (spec : TaskSpec) (aid : JStr)
    (learn : Nat → Except String JFields) (i : Nat) (w : BbonWorld)
    (hnow : isDatetime now = true)
    (hspec : (canonV (.jobj spec.toFields)).isOk = true)
    (hlearn : ∀ lr, learn i = .ok lr → (canonV (.jobj lr)).isOk = true) :
    ∃ sr w4, bbonTryBlock now spec aid learn i w = (.ok sr, w4) ∧
      w4.stepLog = w.stepLog ++
        (match learn i with
         | .ok _ => [(aid, (0 : Int), u "reflect"), (aid, (1 : Int), u "learn_complete")]
         | .error _ => [(aid, (0 : Int), u "reflect"), (aid, (0 : Int), u "error")]) := by
  obtain ⟨cs, hcs⟩ := isOk_exists hspec
  have hc1 : (canonV (AttemptStepInput.toJVal
      { attemptId := aid, stepIndex := 0, kind := u "reflect",
        input := JFields.ofList [(u "task", JVal.jobj spec.toFields)],
        output := .nil, observation := .nil })).isOk = true :=
    canonV_stepInput_isOk _
      (canonV_singleField_isOk (u "task") (.jobj spec.toFields) cs rfl hcs) rfl rfl
  obtain ⟨r1, st2, hadd1⟩ := addAttemptStep_ok now w.attemptSteps
    { attemptId := aid, stepIndex := 0, kind := u "reflect",
      input := JFields.ofList [(u "task", JVal.jobj spec.toFields)],
      output := .nil, observation := .nil } hnow rfl hc1
  unfold bbonTryBlock
  rw [hadd1]
  dsimp only []
  cases hl : learn i with
  | error emsg =>
    dsimp only []
    obtain ⟨res, st3, hcat⟩ := bbonCatch_ok now aid none emsg
      { w with
        attemptSteps := st2
        stepLog := w.stepLog ++ [(aid, 0, u "reflect")] } hnow
    refine ⟨res, _, hcat, ?_⟩
    simp
  | ok lr =>
    dsimp only []
    have hc2 : (canonV (AttemptStepInput.toJVal
        { attemptId := aid, stepIndex := 1, kind := u "learn_complete",
          input := .nil, output := lr, observation := .nil })).isOk = true :=
      canonV_stepInput_isOk _ rfl (hlearn lr hl) rfl
    obtain ⟨r2, st3, hadd2⟩ := addAttemptStep_ok now st2
      { attemptId := aid, stepIndex := 1, kind := u "learn_complete",
        input := .nil, output := lr, observation := .nil } hnow rfl hc2
    rw [hadd2]
    refine ⟨_, _, rfl, ?_⟩
    simp

/-- C9 (corrected): the steps recorded by one attempt iteration of
`bbonRunCommand` all target one attempt and carry the index/kind
sequence `(0, reflect), (1, learn_complete)` when the learn cycle
succeeds, but `(0, reflect), (0, error)` when it fails before producing
a result — the failure path reuses index 0 (the source computes the
error step index as `learnResult ? 1 : 0`), so the recorded indices are
not strictly increasing. -/
theorem C9_failure_path_reuses_index_zero (now : JStr) (spec : TaskSpec) (runId : JStr)
    (learn : Nat → Except String JFields) (i : Nat) (w : BbonWorld)
    (hnow : isDatetime now = true)
    (hspec : (canonV (.jobj spec.toFields)).isOk = true)
    (hlearn : ∀ lr, learn i = .ok lr → (canonV (.jobj lr)).isOk = true)
    (hok : (bbonAttemptIteration now spec runId learn i w).1.isOk = true) :
    ((bbonAttemptIteration now spec runId learn i w).2).stepLog.map
        (fun t => (t.2.1, t.2.2)) =
      w.stepLog.map (fun t => (t.2.1, t.2.2)) ++
        (match learn i with
         | .ok _ => [((0 : Int), u "reflect"), ((1 : Int), u "learn_complete")]
         | .error _ => [((0 : Int), u "reflect"), ((0 : Int), u "error")]) ∧
    allEqB ((((bbonAttemptIteration now spec runId learn i w).2).stepLog.drop
        w.stepLog.length).map (fun t => t.1)) = true := by
  rw [bbonAttemptIteration] at hok ⊢
  cases hadd : addAttempt now w.attempts
      { runId := runId, ordinal := (i : Int), status := .pending, result := .nil,
        completedAt := none } with
  | error e =>
    rw [hadd] at hok
    simp [Except.isOk, Except.toBool] at hok
  | ok pr =>
    cases pr with
    | mk attempt at2 =>
      dsimp only [] at hok ⊢
      obtain ⟨sr, w4, htry, hlog⟩ := bbonTryBlock_ok now spec attempt.id learn i
        { w with attempts := (updateAttempt at2 attempt.id
            { status := some .running, result := none, completedAt := none }) }
        hnow hspec hlearn
      cases sr with
      | mk fs res =>
        rw [htry]
        dsimp only []
        cases hl : learn i with
        | error emsg =>
          rw [hl] at hlog
          rw [hlog]
          constructor
          · simp [List.map_append]
          · simp [List.drop_left, allEqB]
        | ok lr =>
          rw [hl] at hlog
          rw [hlog]
          constructor
          · simp [List.map_append]
          · simp [List.drop_left, allEqB]

set_option maxRecDepth 8000 in
/-- C9 counterexample to the strict-increase claim: one attempt whose
learn cycle throws ends with two stored steps of the same attempt
carrying the same `stepIndex` 0 (`reflect` then `error`). -/
theorem C9_counterexample :
    (bbonRunCommand wNow c9Spec 1 1 .nil c9LearnFail bbonWorld0).1.isOk = true ∧
    ((bbonRunCommand wNow c9Spec 1 1 .nil c9LearnFail bbonWorld0).2).attemptSteps.map
        (fun st => (st.stepIndex, st.kind)) =
      [((0 : Int), u "reflect"), ((0 : Int), u "error")] ∧
    allEqB (((bbonRunCommand wNow c9Spec 1 1 .nil
        c9LearnFail bbonWorld0).2).attemptSteps.map (fun st => st.attemptId)) = true :=
  ⟨rfl, rfl, rfl⟩

set_option maxRecDepth 8000 in
/-- C9, witness: the per-attempt theorem at the failing learn cycle
over the empty world — the recorded index/kind sequence is
`(0, reflect), (0, error)`. -/
theorem C9_witness :
    ((bbonAttemptIteration wNow c9Spec (u "r") c9LearnFail 0 bbonWorld0).2).stepLog.map
        (fun t => (t.2.1, t.2.2)) =
      [((0 : Int), u "reflect"), ((0 : Int), u "error")] :=
  ((C9_failure_path_reuses_index_zero wNow c9Spec (u "r") c9LearnFail 0 bbonWorld0 rfl rfl
      (fun lr h => Except.noConfusion h) rfl).1).trans rfl

end Engram
